import Mathlib

/-!
Verification development for the tailwind-lsp-adapter repository
(`src/index.ts`).  The adapter is a stdio proxy between an LSP host and
the Tailwind language server.  This file gives a shallow embedding of the
adapter's frame codec (`MessageBuffer`, `encodeMessage`), its workspace
validator (`validateWorkspacePath`), its Tailwind-v4 entry-point resolver
(`detectTailwindV4Entrypoint`), and its interception engine
(`handleRegisterCapability`, `handleWorkspaceConfiguration`,
`patchInitializeRequest`, and the server-to-client dispatch of `main`),
together with proofs of the spec's testable properties.

Modelling conventions:
* bytes are `Nat` values (`< 256` for real streams), strings are Lean
  `String`s, and UTF-8 encoding/decoding is modelled explicitly;
* JSON values are an inductive `Json` whose numbers are integers (the
  adapter's own traffic is integer-valued; float payloads are outside the
  embedding);
* functions that loop are written with an explicit fuel argument so that
  they are structurally recursive and evaluate inside the kernel; the
  fuel chosen at the wrapper is always sufficient, which the lemmas prove.
-/

namespace TailwindAdapter

/-! ## Decimal numerals

Model of JavaScript's number-to-string conversion (template literals,
`JSON.stringify` of integers) and of `parseInt(s, 10)` on digit strings. -/

/-- Decimal digit character for `d < 10`. -/
def decChar (d : Nat) : Char := Char.ofNat (48 + d)

/-- Fuel-driven decimal printer; `natToChars` supplies sufficient fuel. -/
def natDigitsAux : Nat → Nat → List Char
  | 0, _ => []
  | fuel + 1, n =>
    if n < 10 then [decChar n]
    else natDigitsAux fuel (n / 10) ++ [decChar (n % 10)]

/-- Decimal representation of a natural number, as JavaScript prints it. -/
def natToChars (n : Nat) : List Char := natDigitsAux (n + 1) n

/-- Decimal representation of an integer, as `JSON.stringify` prints it. -/
def intToChars (n : Int) : List Char :=
  if n < 0 then '-' :: natToChars n.natAbs else natToChars n.toNat

/-- Value of a digit string (model of `parseInt(s, 10)` on digit-only input). -/
def digitsToNat (cs : List Char) : Nat :=
  cs.foldl (fun a c => a * 10 + (c.toNat - 48)) 0

theorem decChar_isDigit {d : Nat} (h : d < 10) : (decChar d).isDigit = true := by
  unfold decChar Char.isDigit
  interval_cases d <;> decide

theorem natDigitsAux_digits {fuel n : Nat} (h : n < fuel) :
    ∀ c ∈ natDigitsAux fuel n, c.isDigit = true := by
  induction fuel generalizing n with
  | zero => omega
  | succ f ih =>
    intro c hc
    unfold natDigitsAux at hc
    by_cases h10 : n < 10
    · simp [h10] at hc
      subst hc; exact decChar_isDigit h10
    · simp [h10] at hc
      rcases hc with hc | hc
      · exact ih (by omega) c hc
      · subst hc; exact decChar_isDigit (Nat.mod_lt _ (by omega))

theorem natToChars_digits (n : Nat) : ∀ c ∈ natToChars n, c.isDigit = true :=
  natDigitsAux_digits (Nat.lt_succ_self n)

theorem natToChars_ne_nil (n : Nat) : natToChars n ≠ [] := by
  unfold natToChars natDigitsAux
  by_cases h10 : n < 10 <;> simp [h10]

theorem decChar_toNat {d : Nat} (h : d < 10) : (decChar d).toNat = 48 + d := by
  unfold decChar
  interval_cases d <;> decide

theorem digitsToNat_append (a b : List Char) :
    digitsToNat (a ++ b) = b.foldl (fun a c => a * 10 + (c.toNat - 48)) (digitsToNat a) := by
  simp [digitsToNat, List.foldl_append]

theorem natDigitsAux_val {fuel n : Nat} (h : n < fuel) :
    digitsToNat (natDigitsAux fuel n) = n := by
  induction fuel generalizing n with
  | zero => omega
  | succ f ih =>
    unfold natDigitsAux
    by_cases h10 : n < 10
    · simp [h10, digitsToNat, decChar_toNat h10]
    · have hdiv : n / 10 < f := by omega
      simp [h10, digitsToNat_append, ih hdiv]
      simp [digitsToNat, decChar_toNat (Nat.mod_lt n (by omega))]
      omega

theorem digitsToNat_natToChars (n : Nat) : digitsToNat (natToChars n) = n :=
  natDigitsAux_val (Nat.lt_succ_self n)

/-! ## UTF-8

Node's `Buffer.from(s, "utf-8")` / `buf.toString("utf-8")` pair, modelled
at the byte level (bytes are `Nat`s).  Invalid byte sequences decode to
U+FFFD, mirroring Node's replacement behaviour; the theorems only ever
decode valid sequences. -/

/-- UTF-8 encoding of a single character (1–4 bytes). -/
def utf8Char (c : Char) : List Nat :=
  let n := c.toNat
  if n < 0x80 then [n]
  else if n < 0x800 then [0xC0 + n / 0x40, 0x80 + n % 0x40]
  else if n < 0x10000 then
    [0xE0 + n / 0x1000, 0x80 + (n / 0x40) % 0x40, 0x80 + n % 0x40]
  else
    [0xF0 + n / 0x40000, 0x80 + (n / 0x1000) % 0x40, 0x80 + (n / 0x40) % 0x40,
      0x80 + n % 0x40]

/-- UTF-8 encoding of a string (model of `Buffer.from(s, "utf-8")`). -/
def utf8Encode (s : String) : List Nat := s.toList.flatMap utf8Char

/-- Byte length of the UTF-8 encoding (model of `Buffer.byteLength(s, "utf-8")`). -/
def byteLength (s : String) : Nat := (utf8Encode s).length

/-- Decode one 2-byte UTF-8 sequence whose lead byte is `b`. -/
def utf8Step2 (b : Nat) : List Nat → Char × List Nat
  | b1 :: r => (Char.ofNat ((b - 0xC0) * 0x40 + (b1 - 0x80)), r)
  | [] => ('�', [])

/-- Decode one 3-byte UTF-8 sequence whose lead byte is `b`. -/
def utf8Step3 (b : Nat) : List Nat → Char × List Nat
  | b1 :: b2 :: r =>
    (Char.ofNat ((b - 0xE0) * 0x1000 + (b1 - 0x80) * 0x40 + (b2 - 0x80)), r)
  | _ => ('�', [])

/-- Decode one 4-byte UTF-8 sequence whose lead byte is `b`. -/
def utf8Step4 (b : Nat) : List Nat → Char × List Nat
  | b1 :: b2 :: b3 :: r =>
    (Char.ofNat ((b - 0xF0) * 0x40000 + (b1 - 0x80) * 0x1000 +
      (b2 - 0x80) * 0x40 + (b3 - 0x80)), r)
  | _ => ('�', [])

/-- Decode one character from lead byte `b` and remaining bytes `rest`,
returning the character and the unconsumed bytes.  Invalid leads decode to
U+FFFD. -/
def utf8Step (b : Nat) (rest : List Nat) : Char × List Nat :=
  if b < 0x80 then (Char.ofNat b, rest)
  else if b < 0xC0 then ('�', rest)
  else if b < 0xE0 then utf8Step2 b rest
  else if b < 0xF0 then utf8Step3 b rest
  else if b < 0xF8 then utf8Step4 b rest
  else ('�', rest)

/-- Fuel-driven UTF-8 decoding loop; `utf8DecodeChars` supplies the fuel. -/
def utf8DecodeAux : Nat → List Nat → List Char
  | _, [] => []
  | 0, _ :: _ => []
  | f + 1, b :: rest =>
    let s := utf8Step b rest
    s.1 :: utf8DecodeAux f s.2

/-- Decode a UTF-8 byte list to characters, emitting U+FFFD for invalid input. -/
def utf8DecodeChars (bs : List Nat) : List Char := utf8DecodeAux bs.length bs

theorem utf8Step_length (b : Nat) (rest : List Nat) :
    (utf8Step b rest).2.length ≤ rest.length := by
  rcases rest with - | ⟨b1, - | ⟨b2, - | ⟨b3, r⟩⟩⟩ <;>
    simp only [utf8Step, utf8Step2, utf8Step3, utf8Step4] <;>
    (repeat' split) <;> simp_arith

theorem utf8DecodeAux_fuel {f1 f2 : Nat} {bs : List Nat}
    (h1 : bs.length ≤ f1) (h2 : bs.length ≤ f2) :
    utf8DecodeAux f1 bs = utf8DecodeAux f2 bs := by
  induction f1 generalizing f2 bs with
  | zero =>
    cases bs with
    | nil => cases f2 <;> rfl
    | cons b r => simp at h1
  | succ f ih =>
    cases bs with
    | nil => cases f2 <;> rfl
    | cons b r =>
      cases f2 with
      | zero => simp at h2
      | succ f2' =>
        unfold utf8DecodeAux
        show (utf8Step b r).1 :: utf8DecodeAux f (utf8Step b r).2 =
          (utf8Step b r).1 :: utf8DecodeAux f2' (utf8Step b r).2
        have hl := utf8Step_length b r
        simp only [List.length_cons] at h1 h2
        rw [show utf8DecodeAux f (utf8Step b r).2 = utf8DecodeAux f2' (utf8Step b r).2
          from ih (by omega) (by omega)]

theorem utf8DecodeChars_cons (b : Nat) (rest : List Nat) :
    utf8DecodeChars (b :: rest) =
      (utf8Step b rest).1 :: utf8DecodeChars (utf8Step b rest).2 := by
  have hl := utf8Step_length b rest
  unfold utf8DecodeChars
  simp only [List.length_cons, utf8DecodeAux]
  exact congrArg _ (utf8DecodeAux_fuel hl (le_refl _))

/-- Decode a UTF-8 byte list to a string (model of `buf.toString("utf-8")`). -/
def utf8Decode (bs : List Nat) : String := (utf8DecodeChars bs).asString

theorem toList_asString (l : List Char) : l.asString.toList = l := rfl

theorem asString_toList (s : String) : s.toList.asString = s := by
  cases s; rfl

theorem char_toNat_lt (c : Char) : c.toNat < 0x110000 := by
  have h := c.valid
  unfold UInt32.isValidChar Nat.isValidChar at h
  have h2 : c.toNat = c.val.toNat := rfl
  rcases h with h | ⟨h1, h1'⟩ <;> omega

theorem char_ofNat_toNat (c : Char) : Char.ofNat c.toNat = c :=
  Char.ofNat_toNat c

theorem utf8DecodeChars_encChar (c : Char) (rest : List Nat) :
    utf8DecodeChars (utf8Char c ++ rest) = c :: utf8DecodeChars rest := by
  have hlt := char_toNat_lt c
  unfold utf8Char
  by_cases h1 : c.toNat < 0x80
  · simp only [h1, if_true, List.cons_append, List.nil_append]
    rw [utf8DecodeChars_cons]
    simp [utf8Step, h1, char_ofNat_toNat c]
  · by_cases h2 : c.toNat < 0x800
    · simp only [h1, if_false, h2, if_true, List.cons_append, List.nil_append]
      rw [utf8DecodeChars_cons]
      have hb : ¬ (0xC0 + c.toNat / 0x40 < 0x80) := by omega
      have hb2 : ¬ (0xC0 + c.toNat / 0x40 < 0xC0) := by omega
      have hb3 : 0xC0 + c.toNat / 0x40 < 0xE0 := by omega
      simp only [utf8Step, hb, if_false, hb2, hb3, if_true, utf8Step2]
      have harith : (0xC0 + c.toNat / 0x40 - 0xC0) * 0x40 +
          (0x80 + c.toNat % 0x40 - 0x80) = c.toNat := by omega
      rw [harith, char_ofNat_toNat c]
    · by_cases h3 : c.toNat < 0x10000
      · simp only [h1, if_false, h2, h3, if_true, List.cons_append, List.nil_append]
        rw [utf8DecodeChars_cons]
        have hb : ¬ (0xE0 + c.toNat / 0x1000 < 0x80) := by omega
        have hb2 : ¬ (0xE0 + c.toNat / 0x1000 < 0xC0) := by omega
        have hb3 : ¬ (0xE0 + c.toNat / 0x1000 < 0xE0) := by omega
        have hb4 : 0xE0 + c.toNat / 0x1000 < 0xF0 := by omega
        simp only [utf8Step, hb, if_false, hb2, hb3, hb4, if_true, utf8Step3]
        have harith : (0xE0 + c.toNat / 0x1000 - 0xE0) * 0x1000 +
            (0x80 + c.toNat / 0x40 % 0x40 - 0x80) * 0x40 +
            (0x80 + c.toNat % 0x40 - 0x80) = c.toNat := by omega
        rw [harith, char_ofNat_toNat c]
      · simp only [h1, if_false, h2, h3, List.cons_append, List.nil_append]
        rw [utf8DecodeChars_cons]
        have hb : ¬ (0xF0 + c.toNat / 0x40000 < 0x80) := by omega
        have hb2 : ¬ (0xF0 + c.toNat / 0x40000 < 0xC0) := by omega
        have hb3 : ¬ (0xF0 + c.toNat / 0x40000 < 0xE0) := by omega
        have hb4 : ¬ (0xF0 + c.toNat / 0x40000 < 0xF0) := by omega
        have hb5 : 0xF0 + c.toNat / 0x40000 < 0xF8 := by omega
        simp only [utf8Step, hb, if_false, hb2, hb3, hb4, hb5, if_true, utf8Step4]
        have harith : (0xF0 + c.toNat / 0x40000 - 0xF0) * 0x40000 +
            (0x80 + c.toNat / 0x1000 % 0x40 - 0x80) * 0x1000 +
            (0x80 + c.toNat / 0x40 % 0x40 - 0x80) * 0x40 +
            (0x80 + c.toNat % 0x40 - 0x80) = c.toNat := by omega
        rw [harith, char_ofNat_toNat c]

theorem utf8DecodeChars_encode (l : List Char) :
    utf8DecodeChars (l.flatMap utf8Char) = l := by
  induction l with
  | nil => rfl
  | cons c cs ih => rw [List.flatMap_cons, utf8DecodeChars_encChar, ih]

theorem utf8Decode_encode (s : String) : utf8Decode (utf8Encode s) = s := by
  rw [utf8Decode, utf8Encode, utf8DecodeChars_encode, asString_toList]

/-! ## JSON values

The adapter's messages are plain parsed-JSON values (`JSON.parse` output /
`JSON.stringify` input).  Numbers are modelled as integers: the adapter's
own traffic is integer-valued and IEEE floats are outside the shallow
embedding. -/

mutual
/-- A JSON value.  `obj` keeps fields in order, mirroring JavaScript's
insertion-ordered objects; a genuine JavaScript value never has duplicate
keys, which `wellFormed` captures.  (Mutual rather than nested inductives
keep every function on JSON structurally recursive.) -/
inductive Json where
  | null
  | bool (b : Bool)
  | num (n : Int)
  | str (s : String)
  | arr (elems : JsonList)
  | obj (fields : JsonFields)
  deriving DecidableEq

/-- Elements of a JSON array. -/
inductive JsonList where
  | nil
  | cons (head : Json) (tail : JsonList)
  deriving DecidableEq

/-- Fields of a JSON object, in insertion order. -/
inductive JsonFields where
  | nil
  | cons (key : String) (value : Json) (tail : JsonFields)
  deriving DecidableEq
end

/-- Build a JSON array value from a Lean list. -/
def JsonList.ofList : List Json → JsonList
  | [] => .nil
  | x :: xs => .cons x (JsonList.ofList xs)

/-- View a JSON array value as a Lean list. -/
def JsonList.toList : JsonList → List Json
  | .nil => []
  | .cons x xs => x :: xs.toList

/-- Build JSON object fields from a Lean association list. -/
def JsonFields.ofList : List (String × Json) → JsonFields
  | [] => .nil
  | (k, v) :: kvs => .cons k v (JsonFields.ofList kvs)

/-- Keys of a JSON object's fields, in order. -/
def JsonFields.keys : JsonFields → List String
  | .nil => []
  | .cons k _ fs => k :: fs.keys

/-- Lower-case hexadecimal digit for `d < 16` (as `JSON.stringify` emits). -/
def hexChar (d : Nat) : Char :=
  if d < 10 then Char.ofNat (48 + d) else Char.ofNat (87 + d)

/-- Model of `JSON.stringify` string-character escaping. -/
def escapeChar (c : Char) : List Char :=
  if c = '"' then ['\\', '"']
  else if c = '\\' then ['\\', '\\']
  else if c = '\n' then ['\\', 'n']
  else if c = '\r' then ['\\', 'r']
  else if c = '\t' then ['\\', 't']
  else if c = '\x08' then ['\\', 'b']
  else if c = '\x0c' then ['\\', 'f']
  else if c.toNat < 0x20 then
    ['\\', 'u', '0', '0', hexChar (c.toNat / 16), hexChar (c.toNat % 16)]
  else [c]

/-- Serialized form of a JSON string, quotes included. -/
def serStr (s : String) : List Char := '"' :: s.toList.flatMap escapeChar ++ ['"']

mutual
/-- Serialization of a JSON value (model of `JSON.stringify`): no
whitespace, fields in insertion order, strings escaped by `escapeChar`. -/
def serJson : Json → List Char
  | .null => 'n' :: ['u', 'l', 'l']
  | .bool true => 't' :: ['r', 'u', 'e']
  | .bool false => 'f' :: ['a', 'l', 's', 'e']
  | .num n => intToChars n
  | .str s => serStr s
  | .arr xs => '[' :: serArr xs
  | .obj kvs => '{' :: serObj kvs

/-- Serialized array elements, including the closing bracket. -/
def serArr : JsonList → List Char
  | .nil => [']']
  | .cons x .nil => serJson x ++ [']']
  | .cons x (.cons y ys) => serJson x ++ ',' :: serArr (.cons y ys)

/-- Serialized object fields, including the closing brace. -/
def serObj : JsonFields → List Char
  | .nil => ['}']
  | .cons k v .nil => serStr k ++ ':' :: serJson v ++ ['}']
  | .cons k v (.cons k2 v2 fs) =>
    serStr k ++ ':' :: serJson v ++ ',' :: serObj (.cons k2 v2 fs)
end

/-- Serialization of a JSON value as a string. -/
def serialize (j : Json) : String := (serJson j).asString

mutual
/-- Does no object field list in this value repeat a key?  `wellFormed`
values are exactly those realizable as in-memory JavaScript objects. -/
def wellFormed : Json → Bool
  | .null => true
  | .bool _ => true
  | .num _ => true
  | .str _ => true
  | .arr xs => wfList xs
  | .obj kvs => decide kvs.keys.Nodup && wfFields kvs

def wfList : JsonList → Bool
  | .nil => true
  | .cons x xs => wellFormed x && wfList xs

def wfFields : JsonFields → Bool
  | .nil => true
  | .cons _ v fs => wellFormed v && wfFields fs
end

/-! ## JSON parsing

Model of `JSON.parse`.  Faithful on the values the adapter exchanges;
restrictions (documented where they bite): numbers must be integers,
`\uXXXX` escapes must denote Unicode scalar values (lone surrogates are
rejected), and literal control characters inside strings are accepted. -/

/-- JSON insignificant whitespace. -/
def isJsonWs (c : Char) : Bool := c = ' ' || c = '\t' || c = '\n' || c = '\r'

/-- Drop leading JSON whitespace. -/
def skipWs (cs : List Char) : List Char := cs.dropWhile isJsonWs

/-- Value of one hexadecimal digit character. -/
def hexVal (c : Char) : Option Nat :=
  if '0' ≤ c ∧ c ≤ '9' then some (c.toNat - 48)
  else if 'a' ≤ c ∧ c ≤ 'f' then some (c.toNat - 87)
  else if 'A' ≤ c ∧ c ≤ 'F' then some (c.toNat - 55)
  else none

/-- Code point of a `\uXXXX` escape, rejecting surrogate halves. -/
def hex4 (h1 h2 h3 h4 : Char) : Option Nat :=
  match hexVal h1, hexVal h2, hexVal h3, hexVal h4 with
  | some a, some b, some c, some d =>
    let n := a * 4096 + b * 256 + c * 16 + d
    if n.isValidChar then some n else none
  | _, _, _, _ => none

/-- Character denoted by a single-character escape sequence. -/
def escDecode : Char → Option Char
  | 'n' => some '\n'
  | 't' => some '\t'
  | 'r' => some '\r'
  | 'b' => some '\x08'
  | 'f' => some '\x0c'
  | '"' => some '"'
  | '\\' => some '\\'
  | '/' => some '/'
  | _ => none

/-- Parse the body of a JSON string (after the opening quote), returning
the decoded characters and the input after the closing quote. -/
def parseStrChars : List Char → Option (List Char × List Char)
  | [] => none
  | c :: r =>
    if c = '"' then some ([], r)
    else if c = '\\' then
      match r with
      | [] => none
      | e :: r2 =>
        if e = 'u' then
          match r2 with
          | h1 :: h2 :: h3 :: h4 :: r3 =>
            match hex4 h1 h2 h3 h4 with
            | some n => (parseStrChars r3).map (fun p => (Char.ofNat n :: p.1, p.2))
            | none => none
          | _ => none
        else
          match escDecode e with
          | some ec => (parseStrChars r2).map (fun p => (ec :: p.1, p.2))
          | none => none
    else (parseStrChars r).map (fun p => (c :: p.1, p.2))

/-- Parse an unsigned integer literal, rejecting fraction/exponent tails
(the model restricts JSON numbers to integers). -/
def parseNatNum (cs : List Char) : Option (Nat × List Char) :=
  let ds := cs.takeWhile Char.isDigit
  let r := cs.dropWhile Char.isDigit
  if ds.isEmpty then none
  else
    match r with
    | '.' :: _ => none
    | 'e' :: _ => none
    | 'E' :: _ => none
    | _ => some (digitsToNat ds, r)

/-- Parse a JSON number (optional minus sign, then digits). -/
def parseNumber (cs : List Char) : Option (Json × List Char) :=
  match cs with
  | '-' :: r => (parseNatNum r).map (fun p => (Json.num (-(p.1 : Int)), p.2))
  | _ => (parseNatNum cs).map (fun p => (Json.num (p.1 : Int), p.2))

/-- Fuel-driven JSON value parser; `parseJsonChars` supplies the fuel
(one unit per character is always sufficient, since every recursive call
consumes at least one character first).  Array and object tails recurse by
re-prefixing the opening bracket, keeping the recursion structural. -/
def parseVal : Nat → List Char → Option (Json × List Char)
  | 0, _ => none
  | f + 1, cs =>
    match skipWs cs with
    | [] => none
    | c :: r =>
      if c = 'n' then
        if r.take 3 = ['u', 'l', 'l'] then some (.null, r.drop 3) else none
      else if c = 't' then
        if r.take 3 = ['r', 'u', 'e'] then some (.bool true, r.drop 3) else none
      else if c = 'f' then
        if r.take 4 = ['a', 'l', 's', 'e'] then some (.bool false, r.drop 4) else none
      else if c = '"' then
        (parseStrChars r).map (fun p => (Json.str p.1.asString, p.2))
      else if c = '[' then
        let r1 := skipWs r
        if r1.head? = some ']' then some (.arr .nil, r1.tail)
        else
          match parseVal f r1 with
          | some (j, r2) =>
            let r3 := skipWs r2
            if r3.head? = some ']' then some (.arr (.cons j .nil), r3.tail)
            else if r3.head? = some ',' then
              let r4 := skipWs r3.tail
              if r4.head? = some ']' then none
              else
                match parseVal f ('[' :: r4) with
                | some (.arr js, r5) => some (.arr (.cons j js), r5)
                | _ => none
            else none
          | none => none
      else if c = '{' then
        let r1 := skipWs r
        if r1.head? = some '}' then some (.obj .nil, r1.tail)
        else if r1.head? = some '"' then
          match parseStrChars r1.tail with
          | some (k, r2) =>
            let r3 := skipWs r2
            if r3.head? = some ':' then
              match parseVal f r3.tail with
              | some (v, r4) =>
                let r5 := skipWs r4
                if r5.head? = some '}' then
                  some (.obj (.cons k.asString v .nil), r5.tail)
                else if r5.head? = some ',' then
                  let r6 := skipWs r5.tail
                  if r6.head? = some '"' then
                    match parseVal f ('{' :: r6) with
                    | some (.obj kvs, r7) => some (.obj (.cons k.asString v kvs), r7)
                    | _ => none
                  else none
                else none
              | none => none
            else none
          | none => none
        else none
      else parseNumber (c :: r)

/-- Parse a complete JSON document from characters (model of `JSON.parse`):
one value with only whitespace around it. -/
def parseJsonChars (cs : List Char) : Option Json :=
  match parseVal (cs.length + 1) cs with
  | some (j, r) => if (skipWs r).isEmpty then some j else none
  | none => none

/-- Parse a complete JSON document from a string. -/
def parseJson (s : String) : Option Json := parseJsonChars s.toList

/-- Contexts that may legally follow a serialized JSON value inside a
document: end of input or a container delimiter. -/
def delimOk : List Char → Prop
  | [] => True
  | c :: _ => c = ',' ∨ c = ']' ∨ c = '}'

theorem skipWs_cons {c : Char} (l : List Char) (h : isJsonWs c = false) :
    skipWs (c :: l) = c :: l := by
  simp [skipWs, List.dropWhile_cons, h]

theorem takeWhile_append_all {p : Char → Bool} :
    ∀ l r : List Char, (∀ c ∈ l, p c = true) →
      (∀ c, r.head? = some c → p c = false) →
      (l ++ r).takeWhile p = l ∧ (l ++ r).dropWhile p = r := by
  intro l r hl hr
  induction l with
  | nil =>
    simp only [List.nil_append]
    cases r with
    | nil => simp
    | cons c r' =>
      have := hr c (by simp)
      simp [List.takeWhile_cons, List.dropWhile_cons, this]
  | cons c l' ih =>
    have hc := hl c (by simp)
    have ih' := ih (fun d hd => hl d (by simp [hd]))
    simp [List.takeWhile_cons, List.dropWhile_cons, hc, ih'.1, ih'.2]

theorem digit_facts {c : Char} (h : c.isDigit = true) :
    isJsonWs c = false ∧ c ≠ 'n' ∧ c ≠ 't' ∧ c ≠ 'f' ∧ c ≠ '"' ∧
      c ≠ '[' ∧ c ≠ '{' ∧ c ≠ ']' ∧ c ≠ '}' ∧ c ≠ ',' ∧ c ≠ ':' := by
  have hws : isJsonWs c = false := by
    unfold isJsonWs
    by_contra hcon
    simp only [Bool.not_eq_false, Bool.or_eq_true, decide_eq_true_eq] at hcon
    rcases hcon with ((h1 | h1) | h1) | h1 <;> subst h1 <;> exact absurd h (by decide)
  refine ⟨hws, ?_, ?_, ?_, ?_, ?_, ?_, ?_, ?_, ?_, ?_⟩ <;>
    (intro heq; subst heq; exact absurd h (by decide))

theorem hexVal_hexChar {d : Nat} (h : d < 16) : hexVal (hexChar d) = some d := by
  interval_cases d <;> decide

theorem delimOk_head {rest : List Char} (h : delimOk rest) :
    ∀ c, rest.head? = some c → (c.isDigit = false ∧ c ≠ '.' ∧ c ≠ 'e' ∧ c ≠ 'E') := by
  intro c hc
  cases rest with
  | nil => simp at hc
  | cons d r =>
    simp at hc
    subst hc
    rcases h with h | h | h <;> subst h <;> refine ⟨by decide, by decide, by decide, by decide⟩

theorem parseNatNum_natToChars (n : Nat) (rest : List Char) (hd : delimOk rest) :
    parseNatNum (natToChars n ++ rest) = some (n, rest) := by
  have hall : ∀ c ∈ natToChars n, c.isDigit = true := natToChars_digits n
  have hhead : ∀ c, rest.head? = some c → c.isDigit = false :=
    fun c hc => (delimOk_head hd c hc).1
  have hsplit := takeWhile_append_all (natToChars n) rest hall hhead
  unfold parseNatNum
  rw [hsplit.1, hsplit.2]
  have hne : (natToChars n).isEmpty = false := by
    cases hn : natToChars n with
    | nil => exact absurd hn (natToChars_ne_nil n)
    | cons c cs => rfl
  simp only [hne, Bool.false_eq_true, if_false]
  cases rest with
  | nil => simp [digitsToNat_natToChars]
  | cons c r =>
    have hc := delimOk_head hd c (by simp)
    rcases hd with h | h | h <;> subst h <;> simp [digitsToNat_natToChars]

theorem parseNumber_intToChars (n : Int) (rest : List Char) (hd : delimOk rest) :
    parseNumber (intToChars n ++ rest) = some (.num n, rest) := by
  unfold intToChars
  by_cases hn : n < 0
  · simp only [hn, if_true, List.cons_append]
    unfold parseNumber
    show Option.map (fun p => (Json.num (-(p.1 : Int)), p.2))
      (parseNatNum (natToChars n.natAbs ++ rest)) = some (Json.num n, rest)
    rw [parseNatNum_natToChars _ _ hd]
    have h2 : -((n.natAbs : Nat) : Int) = n := by omega
    rw [Option.map_some', h2]
  · simp only [hn, if_false]
    obtain ⟨d, ds, heq, hdig⟩ : ∃ d ds, natToChars n.toNat = d :: ds ∧ d.isDigit = true := by
      cases hnn : natToChars n.toNat with
      | nil => exact absurd hnn (natToChars_ne_nil _)
      | cons d ds =>
        exact ⟨d, ds, rfl, natToChars_digits _ d (hnn ▸ List.mem_cons_self d ds)⟩
    have hnum : parseNatNum (natToChars n.toNat ++ rest) = some (n.toNat, rest) :=
      parseNatNum_natToChars n.toNat rest hd
    unfold parseNumber
    rw [heq] at hnum ⊢
    simp only [List.cons_append]
    split
    · rename_i r heqq
      exfalso
      have hdm : d = '-' := by injection heqq
      subst hdm
      exact absurd hdig (by decide)
    · rw [List.cons_append] at hnum
      rw [hnum]
      simp [Int.toNat_of_nonneg (le_of_not_lt hn)]

theorem parseStrChars_escape (l rest : List Char) :
    parseStrChars (l.flatMap escapeChar ++ '"' :: rest) = some (l, rest) := by
  induction l with
  | nil =>
    rw [parseStrChars.eq_def]
    simp
  | cons c l' ih =>
    simp only [List.flatMap_cons, List.append_assoc]
    by_cases h1 : c = '"'
    · subst h1
      rw [show escapeChar '"' = ['\\', '"'] from by decide, List.cons_append,
        List.cons_append, List.nil_append, parseStrChars.eq_def]
      simp [escDecode, ih]
    · by_cases h2 : c = '\\'
      · subst h2
        rw [show escapeChar '\\' = ['\\', '\\'] from by decide, List.cons_append,
          List.cons_append, List.nil_append, parseStrChars.eq_def]
        simp [escDecode, ih]
      · by_cases h3 : c = '\n'
        · subst h3
          rw [show escapeChar '\n' = ['\\', 'n'] from by decide,
          List.cons_append, List.cons_append, List.nil_append,
          parseStrChars.eq_def]
          simp [escDecode, ih]
        · by_cases h4 : c = '\r'
          · subst h4
            rw [show escapeChar '\r' = ['\\', 'r'] from by decide,
            List.cons_append, List.cons_append, List.nil_append,
            parseStrChars.eq_def]
            simp [escDecode, ih]
          · by_cases h5 : c = '\t'
            · subst h5
              rw [show escapeChar '\t' = ['\\', 't'] from by decide,
              List.cons_append, List.cons_append, List.nil_append,
              parseStrChars.eq_def]
              simp [escDecode, ih]
            · by_cases h6 : c = '\x08'
              · subst h6
                rw [show escapeChar '\x08' = ['\\', 'b'] from by decide,
                List.cons_append, List.cons_append, List.nil_append,
                parseStrChars.eq_def]
                simp [escDecode, ih]
              · by_cases h7 : c = '\x0c'
                · subst h7
                  rw [show escapeChar '\x0c' = ['\\', 'f'] from by decide,
                  List.cons_append, List.cons_append, List.nil_append,
                  parseStrChars.eq_def]
                  simp [escDecode, ih]
                · by_cases h8 : c.toNat < 0x20
                  · rw [show escapeChar c =
                      ['\\', 'u', '0', '0', hexChar (c.toNat / 16), hexChar (c.toNat % 16)] from by
                        unfold escapeChar
                        simp [h1, h2, h3, h4, h5, h6, h7, h8]]
                    show parseStrChars ('\\' :: 'u' :: '0' :: '0' ::
                      hexChar (c.toNat / 16) :: hexChar (c.toNat % 16) ::
                      (l'.flatMap escapeChar ++ '"' :: rest)) = _
                    unfold parseStrChars
                    simp only [if_neg (by decide : ¬ ('\\' : Char) = '"'),
                      if_pos (rfl : ('\\' : Char) = '\\'),
                      if_pos (rfl : ('u' : Char) = 'u')]
                    have hx1 : hexVal (hexChar (c.toNat / 16)) = some (c.toNat / 16) :=
                      hexVal_hexChar (by omega)
                    have hx2 : hexVal (hexChar (c.toNat % 16)) = some (c.toNat % 16) :=
                      hexVal_hexChar (by omega)
                    unfold hex4
                    rw [show hexVal '0' = some 0 from by decide, hx1, hx2]
                    have harr : 0 * 4096 + 0 * 256 + c.toNat / 16 * 16 + c.toNat % 16 =
                      c.toNat := by omega
                    simp only [harr]
                    have hvalid : (c.toNat).isValidChar := Or.inl (by omega)
                    rw [if_pos hvalid, ih]
                    simp [char_ofNat_toNat c]
                  · rw [show escapeChar c = [c] from by
                      unfold escapeChar
                      simp [h1, h2, h3, h4, h5, h6, h7, h8]]
                    show parseStrChars (c :: (l'.flatMap escapeChar ++ '"' :: rest)) = _
                    unfold parseStrChars
                    rw [if_neg h1, if_neg h2, ih]
                    rfl

theorem serJson_head (j : Json) : ∃ c cs, serJson j = c :: cs ∧ isJsonWs c = false ∧
    c ≠ ']' ∧ c ≠ '}' ∧ c ≠ ',' ∧ c ≠ ':' := by
  cases j with
  | null => exact ⟨'n', _, rfl, by decide, by decide, by decide, by decide, by decide⟩
  | bool b =>
    cases b with
    | true => exact ⟨'t', _, rfl, by decide, by decide, by decide, by decide, by decide⟩
    | false => exact ⟨'f', _, rfl, by decide, by decide, by decide, by decide, by decide⟩
  | num n =>
    show ∃ c cs, intToChars n = c :: cs ∧ _
    unfold intToChars
    by_cases hn : n < 0
    · rw [if_pos hn]
      exact ⟨'-', _, rfl, by decide, by decide, by decide, by decide, by decide⟩
    · rw [if_neg hn]
      obtain ⟨d, ds, heq, hdig⟩ : ∃ d ds, natToChars n.toNat = d :: ds ∧ d.isDigit = true := by
        cases hnn : natToChars n.toNat with
        | nil => exact absurd hnn (natToChars_ne_nil _)
        | cons d ds =>
          exact ⟨d, ds, rfl, natToChars_digits _ d (hnn ▸ List.mem_cons_self d ds)⟩
      obtain ⟨hws, -, -, -, -, -, -, hne1, hne2, hne3, hne4⟩ := digit_facts hdig
      exact ⟨d, ds, heq, hws, hne1, hne2, hne3, hne4⟩
  | str s => exact ⟨'"', _, rfl, by decide, by decide, by decide, by decide, by decide⟩
  | arr xs => exact ⟨'[', _, rfl, by decide, by decide, by decide, by decide, by decide⟩
  | obj kvs => exact ⟨'{', _, rfl, by decide, by decide, by decide, by decide, by decide⟩


theorem parseVal_ser : ∀ (f : Nat) (j : Json) (rest : List Char),
    (serJson j).length < f → delimOk rest →
    parseVal f (serJson j ++ rest) = some (j, rest) := by
  intro f
  induction f with
  | zero => intro j rest h hd; omega
  | succ f ih =>
    intro j rest hlen hd
    cases j with
    | null =>
      show parseVal (f + 1) ('n' :: 'u' :: 'l' :: 'l' :: rest) = some (.null, rest)
      rw [parseVal.eq_def]
      simp [skipWs, isJsonWs]
    | bool b =>
      cases b with
      | true =>
        show parseVal (f + 1) ('t' :: 'r' :: 'u' :: 'e' :: rest) = some (.bool true, rest)
        rw [parseVal.eq_def]
        simp [skipWs, isJsonWs]
      | false =>
        show parseVal (f + 1) ('f' :: 'a' :: 'l' :: 's' :: 'e' :: rest) = some (.bool false, rest)
        rw [parseVal.eq_def]
        simp [skipWs, isJsonWs]
    | num n =>
      show parseVal (f + 1) (intToChars n ++ rest) = some (.num n, rest)
      obtain ⟨d, ds, heq, hws, hne1, hne2, hne3, hne4⟩ :
          ∃ c cs, serJson (.num n) = c :: cs ∧ isJsonWs c = false ∧
            c ≠ ']' ∧ c ≠ '}' ∧ c ≠ ',' ∧ c ≠ ':' := serJson_head (.num n)
      have hdisp : d = '-' ∨ d.isDigit = true := by
        have : serJson (Json.num n) = intToChars n := rfl
        rw [this] at heq
        unfold intToChars at heq
        by_cases hn : n < 0
        · rw [if_pos hn] at heq
          exact Or.inl (by injection heq with h1 h2; exact h1.symm)
        · rw [if_neg hn] at heq
          exact Or.inr (natToChars_digits _ d (heq ▸ List.mem_cons_self d ds))
      have heq' : intToChars n = d :: ds := heq
      rw [heq', List.cons_append]
      simp only [parseVal]
      rw [skipWs_cons _ hws]
      have c1 : d ≠ 'n' := by
        rcases hdisp with h | h
        · subst h; decide
        · exact (digit_facts h).2.1
      have c2 : d ≠ 't' := by
        rcases hdisp with h | h
        · subst h; decide
        · exact (digit_facts h).2.2.1
      have c3 : d ≠ 'f' := by
        rcases hdisp with h | h
        · subst h; decide
        · exact (digit_facts h).2.2.2.1
      have c4 : d ≠ '"' := by
        rcases hdisp with h | h
        · subst h; decide
        · exact (digit_facts h).2.2.2.2.1
      have c5 : d ≠ '[' := by
        rcases hdisp with h | h
        · subst h; decide
        · exact (digit_facts h).2.2.2.2.2.1
      have c6 : d ≠ '{' := by
        rcases hdisp with h | h
        · subst h; decide
        · exact (digit_facts h).2.2.2.2.2.2.1
      simp only [if_neg c1, if_neg c2, if_neg c3, if_neg c4, if_neg c5, if_neg c6]
      rw [← List.cons_append, ← heq']
      exact parseNumber_intToChars n rest hd
    | str s =>
      have hshape : serJson (.str s) ++ rest =
          '"' :: (s.toList.flatMap escapeChar ++ '"' :: rest) := by
        show serStr s ++ rest = _
        unfold serStr
        simp
      rw [hshape]
      simp only [parseVal]
      rw [skipWs_cons _ (by decide)]
      simp only [if_neg (by decide : ¬('"' : Char) = 'n'),
        if_neg (by decide : ¬('"' : Char) = 't'),
        if_neg (by decide : ¬('"' : Char) = 'f'),
        if_pos (rfl : ('"' : Char) = '"')]
      rw [parseStrChars_escape]
      simp only [Option.map_some']
      rw [show s.toList.asString = s from asString_toList s]
      simp
    | arr xs =>
      cases xs with
      | nil =>
        show parseVal (f + 1) ('[' :: ']' :: rest) = some (.arr .nil, rest)
        simp only [parseVal]
        rw [skipWs_cons _ (by decide)]
        simp only [if_neg (by decide : ¬('[' : Char) = 'n'),
          if_neg (by decide : ¬('[' : Char) = 't'),
          if_neg (by decide : ¬('[' : Char) = 'f'),
          if_neg (by decide : ¬('[' : Char) = '"'),
          if_pos (rfl : ('[' : Char) = '[')]
        rw [skipWs_cons _ (by decide)]
        simp
      | cons x xs' =>
        obtain ⟨cx, csx, hx, hxws, hxne1, hxne2, hxne3, hxne4⟩ := serJson_head x
        cases xs' with
        | nil =>
          have hshape : serJson (.arr (.cons x .nil)) ++ rest =
              '[' :: (serJson x ++ (']' :: rest)) := by
            show '[' :: serArr (.cons x .nil) ++ rest = _
            simp [serArr]
          have hfx : (serJson x).length < f := by
            have h2 : (serJson (Json.arr (.cons x .nil))).length =
                (serJson x).length + 2 := by
              show ('[' :: serArr (.cons x .nil)).length = _
              simp [serArr]
            omega
          rw [hshape]
          simp only [parseVal]
          rw [skipWs_cons _ (by decide)]
          simp only [if_neg (by decide : ¬('[' : Char) = 'n'),
            if_neg (by decide : ¬('[' : Char) = 't'),
            if_neg (by decide : ¬('[' : Char) = 'f'),
            if_neg (by decide : ¬('[' : Char) = '"'),
            if_pos (rfl : ('[' : Char) = '[')]
          have hx' : parseVal f (cx :: (csx ++ ']' :: rest)) = some (x, ']' :: rest) := by
            rw [← List.cons_append, ← hx]
            exact ih x (']' :: rest) hfx (Or.inr (Or.inl rfl))
          rw [hx, List.cons_append, skipWs_cons _ hxws]
          simp only [List.head?_cons]
          rw [if_neg (by simp [hxne1] : ¬ ((some cx : Option Char) = some ']'))]
          simp only [if_true]
          rw [hx']
          simp only []
          have hsk : skipWs (']' :: rest) = ']' :: rest := skipWs_cons _ (by decide)
          simp [hsk]
        | cons y ys =>
          obtain ⟨cy, csy, hy, hyws, hyne1, hyne2, hyne3, hyne4⟩ := serJson_head y
          obtain ⟨tl, htl⟩ : ∃ tl, serArr (.cons y ys) = serJson y ++ tl := by
            cases ys with
            | nil => exact ⟨[']'], rfl⟩
            | cons z zs => exact ⟨',' :: serArr (.cons z zs), rfl⟩
          have hshape : serJson (.arr (.cons x (.cons y ys))) ++ rest =
              '[' :: (serJson x ++ (',' :: (serArr (.cons y ys) ++ rest))) := by
            show '[' :: serArr (.cons x (.cons y ys)) ++ rest = _
            simp [serArr]
          have hlen2 : (serJson (Json.arr (.cons x (.cons y ys)))).length =
              (serJson x).length + (serArr (.cons y ys)).length + 2 := by
            show ('[' :: serArr (.cons x (.cons y ys))).length = _
            simp [serArr]
            omega
          have hxpos : 1 ≤ (serJson x).length := by rw [hx]; simp
          have hfx : (serJson x).length < f := by omega
          have hfy : (serJson (Json.arr (.cons y ys))).length < f := by
            have h3 : (serJson (Json.arr (.cons y ys))).length =
                (serArr (.cons y ys)).length + 1 := by
              show ('[' :: serArr (.cons y ys)).length = _
              simp
            omega
          rw [hshape]
          simp only [parseVal]
          rw [skipWs_cons _ (by decide)]
          simp only [if_neg (by decide : ¬('[' : Char) = 'n'),
            if_neg (by decide : ¬('[' : Char) = 't'),
            if_neg (by decide : ¬('[' : Char) = 'f'),
            if_neg (by decide : ¬('[' : Char) = '"'),
            if_pos (rfl : ('[' : Char) = '[')]
          have hx' : parseVal f (cx :: (csx ++ ',' :: (serArr (.cons y ys) ++ rest))) =
              some (x, ',' :: (serArr (.cons y ys) ++ rest)) := by
            rw [← List.cons_append, ← hx]
            exact ih x (',' :: (serArr (.cons y ys) ++ rest)) hfx (Or.inl rfl)
          have hy' : parseVal f ('[' :: (serArr (.cons y ys) ++ rest)) =
              some (.arr (.cons y ys), rest) := by
            rw [show ('[' :: (serArr (.cons y ys) ++ rest)) =
              serJson (.arr (.cons y ys)) ++ rest from rfl]
            exact ih (.arr (.cons y ys)) rest hfy hd
          rw [hx, List.cons_append, skipWs_cons _ hxws]
          simp only [List.head?_cons]
          rw [if_neg (by simp [hxne1] : ¬ ((some cx : Option Char) = some ']'))]
          simp only [if_true]
          rw [hx']
          simp only []
          have hsk1 : skipWs (',' :: (serArr (.cons y ys) ++ rest)) =
              ',' :: (serArr (.cons y ys) ++ rest) := skipWs_cons _ (by decide)
          have hsk2 : skipWs (serArr (.cons y ys) ++ rest) =
              serArr (.cons y ys) ++ rest := by
            rw [htl, List.append_assoc, hy, List.cons_append, skipWs_cons _ hyws,
              ← List.cons_append, ← hy, ← List.append_assoc, ← htl]
          have hhead : (serArr (.cons y ys) ++ rest).head? = some cy := by
            rw [htl, List.append_assoc, hy]
            simp
          rw [hsk1]
          simp [hsk2, hhead, hy', hyne1]
    | obj kvs =>
      cases kvs with
      | nil =>
        show parseVal (f + 1) ('{' :: '}' :: rest) = some (.obj .nil, rest)
        simp only [parseVal]
        rw [skipWs_cons _ (by decide)]
        simp only [if_neg (by decide : ¬('{' : Char) = 'n'),
          if_neg (by decide : ¬('{' : Char) = 't'),
          if_neg (by decide : ¬('{' : Char) = 'f'),
          if_neg (by decide : ¬('{' : Char) = '"'),
          if_neg (by decide : ¬('{' : Char) = '['),
          if_pos (rfl : ('{' : Char) = '{')]
        rw [skipWs_cons _ (by decide)]
        simp
      | cons k v kvs' =>
        have hkeylen : (serStr k).length = (k.toList.flatMap escapeChar).length + 2 := by
          unfold serStr
          simp
        cases kvs' with
        | nil =>
          have hshape : serJson (.obj (.cons k v .nil)) ++ rest =
              '{' :: ('"' :: (k.toList.flatMap escapeChar ++
                ('"' :: (':' :: (serJson v ++ ('}' :: rest)))))) := by
            show '{' :: serObj (.cons k v .nil) ++ rest = _
            show '{' :: (serStr k ++ ':' :: serJson v ++ ['}']) ++ rest = _
            unfold serStr
            simp
          have hlen2 : (serJson (Json.obj (.cons k v .nil))).length =
              (serStr k).length + (serJson v).length + 3 := by
            show ('{' :: serObj (.cons k v .nil)).length = _
            show ('{' :: (serStr k ++ ':' :: serJson v ++ ['}'])).length = _
            simp
            omega
          have hfv : (serJson v).length < f := by omega
          have hv' : parseVal f (serJson v ++ ('}' :: rest)) = some (v, '}' :: rest) :=
            ih v ('}' :: rest) hfv (Or.inr (Or.inr rfl))
          rw [hshape]
          simp only [parseVal]
          rw [skipWs_cons _ (by decide)]
          simp only [if_neg (by decide : ¬('{' : Char) = 'n'),
            if_neg (by decide : ¬('{' : Char) = 't'),
            if_neg (by decide : ¬('{' : Char) = 'f'),
            if_neg (by decide : ¬('{' : Char) = '"'),
            if_neg (by decide : ¬('{' : Char) = '['),
            if_pos (rfl : ('{' : Char) = '{')]
          rw [skipWs_cons _ (by decide)]
          simp only [List.head?_cons, List.tail_cons, if_true]
          rw [parseStrChars_escape]
          simp only []
          rw [skipWs_cons _ (by decide)]
          simp only [List.head?_cons, List.tail_cons, if_true]
          rw [hv']
          simp only []
          have hsk : skipWs ('}' :: rest) = '}' :: rest := skipWs_cons _ (by decide)
          simp [hsk]
          exact asString_toList k
        | cons k2 v2 fs =>
          have hshape : serJson (.obj (.cons k v (.cons k2 v2 fs))) ++ rest =
              '{' :: ('"' :: (k.toList.flatMap escapeChar ++
                ('"' :: (':' :: (serJson v ++
                  (',' :: (serObj (.cons k2 v2 fs) ++ rest))))))) := by
            show '{' :: serObj (.cons k v (.cons k2 v2 fs)) ++ rest = _
            show '{' :: (serStr k ++ ':' :: serJson v ++
              ',' :: serObj (.cons k2 v2 fs)) ++ rest = _
            unfold serStr
            simp
          have hlen2 : (serJson (Json.obj (.cons k v (.cons k2 v2 fs)))).length =
              (serStr k).length + (serJson v).length +
                (serObj (.cons k2 v2 fs)).length + 3 := by
            show ('{' :: serObj (.cons k v (.cons k2 v2 fs))).length = _
            show ('{' :: (serStr k ++ ':' :: serJson v ++
              ',' :: serObj (.cons k2 v2 fs))).length = _
            simp
            omega
          have hfv : (serJson v).length < f := by omega
          have hfo : (serJson (Json.obj (.cons k2 v2 fs))).length < f := by
            have h3 : (serJson (Json.obj (.cons k2 v2 fs))).length =
                (serObj (.cons k2 v2 fs)).length + 1 := by
              show ('{' :: serObj (.cons k2 v2 fs)).length = _
              simp
            omega
          have hv' : parseVal f (serJson v ++ (',' :: (serObj (.cons k2 v2 fs) ++ rest))) =
              some (v, ',' :: (serObj (.cons k2 v2 fs) ++ rest)) :=
            ih v _ hfv (Or.inl rfl)
          have ho' : parseVal f ('{' :: (serObj (.cons k2 v2 fs) ++ rest)) =
              some (.obj (.cons k2 v2 fs), rest) := by
            rw [show ('{' :: (serObj (.cons k2 v2 fs) ++ rest)) =
              serJson (.obj (.cons k2 v2 fs)) ++ rest from rfl]
            exact ih (.obj (.cons k2 v2 fs)) rest hfo hd
          have hobjhead : serObj (.cons k2 v2 fs) ++ rest =
              '"' :: (k2.toList.flatMap escapeChar ++
                ('"' :: (':' :: serJson v2 ++
                  (match fs with
                    | .nil => ['}']
                    | .cons k3 v3 fs' => ',' :: serObj (.cons k3 v3 fs')) ++ rest))) := by
            cases fs with
            | nil =>
              show (serStr k2 ++ ':' :: serJson v2 ++ ['}']) ++ rest = _
              unfold serStr
              simp
            | cons k3 v3 fs' =>
              show (serStr k2 ++ ':' :: serJson v2 ++
                ',' :: serObj (.cons k3 v3 fs')) ++ rest = _
              unfold serStr
              simp
          rw [hshape]
          simp only [parseVal]
          rw [skipWs_cons _ (by decide)]
          simp only [if_neg (by decide : ¬('{' : Char) = 'n'),
            if_neg (by decide : ¬('{' : Char) = 't'),
            if_neg (by decide : ¬('{' : Char) = 'f'),
            if_neg (by decide : ¬('{' : Char) = '"'),
            if_neg (by decide : ¬('{' : Char) = '['),
            if_pos (rfl : ('{' : Char) = '{')]
          rw [skipWs_cons _ (by decide)]
          simp only [List.head?_cons, List.tail_cons, if_true]
          rw [parseStrChars_escape]
          simp only []
          rw [skipWs_cons _ (by decide)]
          simp only [List.head?_cons, List.tail_cons, if_true]
          rw [hv']
          simp only []
          have hsk1 : skipWs (',' :: (serObj (.cons k2 v2 fs) ++ rest)) =
              ',' :: (serObj (.cons k2 v2 fs) ++ rest) := skipWs_cons _ (by decide)
          have hsk2 : skipWs (serObj (.cons k2 v2 fs) ++ rest) =
              serObj (.cons k2 v2 fs) ++ rest := by
            rw [hobjhead]
            exact skipWs_cons _ (by decide)
          have hhead : (serObj (.cons k2 v2 fs) ++ rest).head? = some '"' := by
            rw [hobjhead]
            simp
          rw [hsk1]
          simp [hsk2, hhead, ho']
          exact asString_toList k

theorem parseJson_serialize (j : Json) : parseJson (serialize j) = some j := by
  unfold parseJson serialize parseJsonChars
  rw [toList_asString]
  have h := parseVal_ser ((serJson j).length + 1) j [] (by omega) trivial
  rw [List.append_nil] at h
  rw [h]
  simp [skipWs]

/-! ## Frame codec

Model of the `MessageBuffer` class (source lines 203–248) and of
`encodeMessage` (lines 253–257).  `feed` appends the incoming bytes to the
buffered ones and then loops: find the `\r\n\r\n` header terminator, read
the `Content-Length` value (skipping a malformed header block), slice the
declared number of body bytes, and `JSON.parse` the body. -/

/-- Decode state of one direction's `MessageBuffer`: the accumulated
unconsumed bytes and, once a header has been parsed, the declared body
length still awaited. -/
structure MessageBuffer where
  buffer : List Nat
  contentLength : Option Nat
deriving DecidableEq

/-- The header-terminator byte sequence `"\r\n\r\n"`. -/
def CRLFCRLF : List Nat := [13, 10, 13, 10]

/-- Does `pat` occur at the start of `l`? -/
def listStartsWith : List Nat → List Nat → Bool
  | [], _ => true
  | _ :: _, [] => false
  | p :: ps, b :: bs => p == b && listStartsWith ps bs

/-- Index of the first occurrence of `pat` in `l` (model of
`Buffer.indexOf`, which returns `-1` — here `none` — when absent). -/
def findSub (pat : List Nat) : List Nat → Option Nat
  | [] => if pat.isEmpty then some 0 else none
  | b :: bs =>
    if listStartsWith pat (b :: bs) then some 0
    else (findSub pat bs).map (· + 1)

/-- Characters matched by the regular-expression class `\s` (the ASCII
part; the headers the adapter sees are ASCII). -/
def isWsRe (c : Char) : Bool :=
  c = ' ' || c = '\t' || c = '\n' || c = '\r' || c = '\x0b' || c = '\x0c'

/-- Match `pat` case-insensitively at the start of `cs`, returning the
remainder on success. -/
def dropCaseInsensitive : List Char → List Char → Option (List Char)
  | [], cs => some cs
  | _ :: _, [] => none
  | p :: ps, c :: cs =>
    if c.toLower = p.toLower then dropCaseInsensitive ps cs else none

/-- Does the regex `/Content-Length:\s*(\d+)/i` match at this position?
If so, the `parseInt` of its digit group. -/
def contentLengthAt (cs : List Char) : Option Nat :=
  match dropCaseInsensitive "Content-Length:".toList cs with
  | none => none
  | some r =>
    let ds := (r.dropWhile isWsRe).takeWhile Char.isDigit
    if ds.isEmpty then none else some (digitsToNat ds)

/-- Leftmost match of `/Content-Length:\s*(\d+)/i` over the header text
(model of `headerStr.match(...)` followed by `parseInt`). -/
def findContentLength' : List Char → Option Nat
  | [] => none
  | c :: cs =>
    match contentLengthAt (c :: cs) with
    | some n => some n
    | none => findContentLength' cs

/-- String-level wrapper for `findContentLength'`. -/
def findContentLength (s : String) : Option Nat := findContentLength' s.toList

/-- Fuel-driven model of the `while (true)` loop in `MessageBuffer.feed`
(source lines 214–244); `MessageBuffer.feed` supplies sufficient fuel. -/
def feedSteps : Nat → MessageBuffer → List Json × MessageBuffer
  | 0, st => ([], st)
  | fuel + 1, st =>
    match st.contentLength with
    | none =>
      match findSub CRLFCRLF st.buffer with
      | none => ([], st)
      | some headerEnd =>
        let headerStr := utf8Decode (st.buffer.take headerEnd)
        match findContentLength headerStr with
        | none => feedSteps fuel ⟨st.buffer.drop (headerEnd + 4), none⟩
        | some n => feedSteps fuel ⟨st.buffer.drop (headerEnd + 4), some n⟩
    | some n =>
      if st.buffer.length < n then ([], st)
      else
        let body := utf8Decode (st.buffer.take n)
        let restSt : MessageBuffer := ⟨st.buffer.drop n, none⟩
        match parseJson body with
        | some j =>
          let p := feedSteps fuel restSt
          (j :: p.1, p.2)
        | none => feedSteps fuel restSt

/-- Termination measure of the feed loop: every iteration either drops at
least four buffered bytes or clears the parsed `contentLength`. -/
def mbMeasure (st : MessageBuffer) : Nat :=
  2 * st.buffer.length + (match st.contentLength with | some _ => 1 | none => 0)

/-- Run the feed loop to quiescence on a buffer state. -/
def processBuf (st : MessageBuffer) : List Json × MessageBuffer :=
  feedSteps (mbMeasure st + 1) st

/-- Model of `MessageBuffer.feed` (source lines 210–247): append the new
bytes and extract every complete message. -/
def MessageBuffer.feed (st : MessageBuffer) (data : List Nat) :
    List Json × MessageBuffer :=
  processBuf ⟨st.buffer ++ data, st.contentLength⟩

/-- A fresh `MessageBuffer` (`buffer = Buffer.alloc(0)`,
`contentLength = null`). -/
def MessageBuffer.empty : MessageBuffer := ⟨[], none⟩

/-- Model of `encodeMessage` (source lines 253–257): a `Content-Length`
header declaring the UTF-8 byte length of the `JSON.stringify` body, the
header terminator, then the body. -/
def encodeMessage (msg : Json) : List Nat :=
  let body := serialize msg
  let header :=
    "Content-Length: " ++ (natToChars (byteLength body)).asString ++ "\r\n\r\n"
  utf8Encode (header ++ body)

theorem listStartsWith_self_append (pat X : List Nat) :
    listStartsWith pat (pat ++ X) = true := by
  induction pat with
  | nil => rfl
  | cons p ps ih => simp [listStartsWith, ih]

theorem listStartsWith_length {pat l : List Nat}
    (h : listStartsWith pat l = true) : pat.length ≤ l.length := by
  induction pat generalizing l with
  | nil => simp
  | cons p ps ih =>
    cases l with
    | nil => simp [listStartsWith] at h
    | cons b bs =>
      simp only [listStartsWith, Bool.and_eq_true] at h
      have := ih h.2
      simp only [List.length_cons]
      omega

theorem listStartsWith_append_of_le {pat B : List Nat} (C : List Nat)
    (h : pat.length ≤ B.length) :
    listStartsWith pat (B ++ C) = listStartsWith pat B := by
  induction pat generalizing B with
  | nil => rfl
  | cons p ps ih =>
    cases B with
    | nil => simp at h
    | cons b bs =>
      simp only [List.length_cons] at h
      simp only [List.cons_append, listStartsWith, List.append_eq]
      rw [ih (by omega)]

theorem findSub_le {pat l : List Nat} {i : Nat}
    (h : findSub pat l = some i) : i + pat.length ≤ l.length := by
  induction l generalizing i with
  | nil =>
    unfold findSub at h
    by_cases hp : pat.isEmpty
    · simp [hp] at h
      subst h
      simp [List.isEmpty_iff.mp hp]
    · simp [hp] at h
  | cons b bs ih =>
    unfold findSub at h
    by_cases hs : listStartsWith pat (b :: bs) = true
    · simp [hs] at h
      subst h
      simpa using listStartsWith_length hs
    · simp [hs] at h
      obtain ⟨i', hi', rfl⟩ := h
      have := ih hi'
      simp only [List.length_cons]
      omega

theorem findSub_append_left {pat B : List Nat} (C : List Nat) {i : Nat}
    (h : findSub pat B = some i) : findSub pat (B ++ C) = some i := by
  induction B generalizing i with
  | nil =>
    unfold findSub at h
    by_cases hp : pat.isEmpty
    · simp [hp] at h
      subst h
      rw [List.isEmpty_iff.mp hp]
      cases C with
      | nil => rfl
      | cons c cs => simp [findSub, listStartsWith]
    · simp [hp] at h
  | cons b bs ih =>
    have hlen : pat.length ≤ (b :: bs).length := by
      have := findSub_le h
      omega
    have hsw : listStartsWith pat (b :: (bs ++ C)) = listStartsWith pat (b :: bs) := by
      rw [show b :: (bs ++ C) = (b :: bs) ++ C from rfl]
      exact listStartsWith_append_of_le C hlen
    unfold findSub at h
    show findSub pat (b :: (bs ++ C)) = some i
    unfold findSub
    rw [hsw]
    by_cases hs : listStartsWith pat (b :: bs) = true
    · simp [hs] at h ⊢
      exact h
    · simp [hs] at h ⊢
      obtain ⟨i', hi', rfl⟩ := h
      exact ⟨i', ih hi', rfl⟩

theorem findSub_at_boundary {A : List Nat} (B : List Nat)
    (hA : (13 : Nat) ∉ A) :
    findSub CRLFCRLF (A ++ (CRLFCRLF ++ B)) = some A.length := by
  induction A with
  | nil =>
    simp only [List.nil_append]
    show findSub CRLFCRLF (CRLFCRLF ++ B) = some 0
    cases hb : CRLFCRLF ++ B with
    | nil => simp [CRLFCRLF] at hb
    | cons x xs =>
      unfold findSub
      rw [← hb, listStartsWith_self_append]
      simp
  | cons a A' ih =>
    have ha : a ≠ 13 := fun hc => hA (hc ▸ List.mem_cons_self a A')
    have hA' : (13 : Nat) ∉ A' := fun hc => hA (List.mem_cons_of_mem a hc)
    simp only [List.cons_append]
    unfold findSub
    have hsw : listStartsWith CRLFCRLF (a :: (A' ++ (CRLFCRLF ++ B))) = false := by
      show ((13 : Nat) == a && _) = false
      have : ((13 : Nat) == a) = false := beq_eq_false_iff_ne.mpr (Ne.symm ha)
      simp [this]
    rw [hsw]
    simp [ih hA']


theorem mbMeasure_drop_header (st : MessageBuffer) {i : Nat}
    (hcl : st.contentLength = none)
    (hfs : findSub CRLFCRLF st.buffer = some i) (cl' : Option Nat) :
    mbMeasure ⟨st.buffer.drop (i + 4), cl'⟩ < mbMeasure st := by
  have hle := findSub_le hfs
  simp only [CRLFCRLF, List.length_cons] at hle
  unfold mbMeasure
  rw [hcl]
  simp only [List.length_drop]
  cases cl' <;> simp <;> omega

theorem mbMeasure_drop_body (st : MessageBuffer) {n : Nat}
    (hcl : st.contentLength = some n) :
    mbMeasure ⟨st.buffer.drop n, none⟩ < mbMeasure st := by
  unfold mbMeasure
  rw [hcl]
  simp only [List.length_drop]
  omega

theorem feedSteps_fuel {f1 f2 : Nat} {st : MessageBuffer}
    (h1 : mbMeasure st < f1) (h2 : mbMeasure st < f2) :
    feedSteps f1 st = feedSteps f2 st := by
  induction f1 generalizing f2 st with
  | zero => omega
  | succ f ih =>
    have hpos : 1 ≤ mbMeasure st + 1 := Nat.le_add_left 1 _
    cases f2 with
    | zero => omega
    | succ g =>
      unfold feedSteps
      cases hcl : st.contentLength with
      | none =>
        simp only []
        cases hfs : findSub CRLFCRLF st.buffer with
        | none => rfl
        | some i =>
          simp only []
          cases hcln : findContentLength (utf8Decode (st.buffer.take i)) with
          | none =>
            simp only []
            have hm := mbMeasure_drop_header _ hcl hfs none
            apply ih <;> omega
          | some n =>
            simp only []
            have hm := mbMeasure_drop_header _ hcl hfs (some n)
            apply ih <;> omega
      | some n =>
        simp only []
        by_cases hlt : st.buffer.length < n
        · simp [hlt]
        · simp only [hlt, if_false]
          have hm := mbMeasure_drop_body _ hcl
          cases hp : parseJson (utf8Decode (st.buffer.take n)) with
          | none =>
            simp only [hp]
            apply ih <;> omega
          | some j =>
            simp only [hp]
            rw [show feedSteps f ⟨st.buffer.drop n, none⟩ =
              feedSteps g ⟨st.buffer.drop n, none⟩ from ih (by omega) (by omega)]





theorem processBuf_no_header (st : MessageBuffer)
    (hcl : st.contentLength = none)
    (hfs : findSub CRLFCRLF st.buffer = none) :
    processBuf st = ([], st) := by
  conv_lhs => unfold processBuf feedSteps
  rw [hcl]
  simp only []
  rw [hfs]

theorem processBuf_header (st : MessageBuffer) {i : Nat}
    (hcl : st.contentLength = none)
    (hfs : findSub CRLFCRLF st.buffer = some i) :
    processBuf st =
      processBuf ⟨st.buffer.drop (i + 4),
        findContentLength (utf8Decode (st.buffer.take i))⟩ := by
  conv_lhs => unfold processBuf feedSteps
  rw [hcl]
  simp only []
  rw [hfs]
  simp only []
  unfold processBuf
  cases hcln : findContentLength (utf8Decode (st.buffer.take i)) with
  | none =>
    simp only []
    have hm := mbMeasure_drop_header _ hcl hfs none
    apply feedSteps_fuel <;> omega
  | some n =>
    simp only []
    have hm := mbMeasure_drop_header _ hcl hfs (some n)
    apply feedSteps_fuel <;> omega

theorem processBuf_need_body (st : MessageBuffer) {n : Nat}
    (hcl : st.contentLength = some n) (hlt : st.buffer.length < n) :
    processBuf st = ([], st) := by
  conv_lhs => unfold processBuf feedSteps
  rw [hcl]
  simp only []
  rw [if_pos hlt]

theorem processBuf_body (st : MessageBuffer) {n : Nat}
    (hcl : st.contentLength = some n) (hge : ¬ st.buffer.length < n) :
    processBuf st =
      match parseJson (utf8Decode (st.buffer.take n)) with
      | some j => (j :: (processBuf ⟨st.buffer.drop n, none⟩).1,
          (processBuf ⟨st.buffer.drop n, none⟩).2)
      | none => processBuf ⟨st.buffer.drop n, none⟩ := by
  conv_lhs => unfold processBuf feedSteps
  rw [hcl]
  simp only []
  rw [if_neg hge]
  unfold processBuf
  have hm := mbMeasure_drop_body _ hcl
  cases hp : parseJson (utf8Decode (st.buffer.take n)) with
  | none =>
    simp only [hp]
    apply feedSteps_fuel <;> omega
  | some j =>
    simp only [hp]
    rw [show feedSteps (mbMeasure st) ⟨st.buffer.drop n, none⟩ =
      feedSteps (mbMeasure ⟨st.buffer.drop n, none⟩ + 1) ⟨st.buffer.drop n, none⟩
      from feedSteps_fuel (by omega) (by omega)]


theorem processBuf_append_aux : ∀ (m : Nat) (B C : List Nat) (cl : Option Nat),
    mbMeasure ⟨B, cl⟩ ≤ m →
    processBuf ⟨B ++ C, cl⟩ =
      ((processBuf ⟨B, cl⟩).1 ++
        (processBuf ⟨(processBuf ⟨B, cl⟩).2.buffer ++ C,
          (processBuf ⟨B, cl⟩).2.contentLength⟩).1,
        (processBuf ⟨(processBuf ⟨B, cl⟩).2.buffer ++ C,
          (processBuf ⟨B, cl⟩).2.contentLength⟩).2) := by
  intro m
  induction m with
  | zero =>
    intro B C cl hm
    have hB : B = [] ∧ cl = none := by
      unfold mbMeasure at hm
      constructor
      · cases B with
        | nil => rfl
        | cons b bs => simp at hm
      · cases cl with
        | none => rfl
        | some n => simp at hm
    obtain ⟨rfl, rfl⟩ := hB
    rw [processBuf_no_header ⟨[], none⟩ rfl (by rfl)]
    simp
  | succ m ih =>
    intro B C cl hm
    cases cl with
    | none =>
      cases hfs : findSub CRLFCRLF B with
      | none =>
        rw [processBuf_no_header ⟨B, none⟩ rfl hfs]
        simp
      | some i =>
        have hle := findSub_le hfs
        simp only [CRLFCRLF, List.length_cons, List.length_nil] at hle
        have hfs2 : findSub CRLFCRLF (B ++ C) = some i := findSub_append_left C hfs
        have htake : (B ++ C).take i = B.take i :=
          List.take_append_of_le_length (by omega)
        have hdrop : (B ++ C).drop (i + 4) = B.drop (i + 4) ++ C :=
          List.drop_append_of_le_length (by omega)
        have hL := processBuf_header ⟨B ++ C, none⟩ rfl hfs2
        simp only [htake, hdrop] at hL
        have hR := processBuf_header ⟨B, none⟩ rfl hfs
        have hmeas := mbMeasure_drop_header ⟨B, none⟩ rfl hfs
          (findContentLength (utf8Decode (B.take i)))
        simp only [] at hmeas hL hR
        rw [hL, hR]
        exact ih (B.drop (i + 4)) C _ (by omega)
    | some n =>
      by_cases hlt : B.length < n
      · rw [processBuf_need_body ⟨B, some n⟩ rfl hlt]
        simp
      · have hlt2 : ¬ (B ++ C).length < n := by
          simp only [List.length_append]
          omega
        have htake : (B ++ C).take n = B.take n :=
          List.take_append_of_le_length (by omega)
        have hdrop : (B ++ C).drop n = B.drop n ++ C :=
          List.drop_append_of_le_length (by omega)
        have hL := processBuf_body ⟨B ++ C, some n⟩ rfl hlt2
        simp only [htake, hdrop] at hL
        have hR := processBuf_body ⟨B, some n⟩ rfl hlt
        have hmeas := mbMeasure_drop_body ⟨B, some n⟩ rfl
        simp only [] at hmeas hL hR
        rw [hL, hR]
        have hih := ih (B.drop n) C none (by omega)
        cases hp : parseJson (utf8Decode (B.take n)) with
        | none =>
          simp only []
          exact hih
        | some j =>
          simp only []
          rw [hih]
          simp



theorem processBuf_stuck_aux : ∀ (m : Nat) (B : List Nat) (cl : Option Nat),
    mbMeasure ⟨B, cl⟩ ≤ m →
    processBuf (processBuf ⟨B, cl⟩).2 = ([], (processBuf ⟨B, cl⟩).2) := by
  intro m
  induction m with
  | zero =>
    intro B cl hm
    have hB : B = [] ∧ cl = none := by
      unfold mbMeasure at hm
      constructor
      · cases B with
        | nil => rfl
        | cons b bs => simp at hm
      · cases cl with
        | none => rfl
        | some n => simp at hm
    obtain ⟨rfl, rfl⟩ := hB
    rw [processBuf_no_header ⟨[], none⟩ rfl (by rfl)]
    exact processBuf_no_header ⟨[], none⟩ rfl (by rfl)
  | succ m ih =>
    intro B cl hm
    cases cl with
    | none =>
      cases hfs : findSub CRLFCRLF B with
      | none =>
        rw [processBuf_no_header ⟨B, none⟩ rfl hfs]
        exact processBuf_no_header ⟨B, none⟩ rfl hfs
      | some i =>
        have hh := processBuf_header ⟨B, none⟩ rfl hfs
        have hmeas := mbMeasure_drop_header ⟨B, none⟩ rfl hfs
          (findContentLength (utf8Decode (B.take i)))
        simp only [] at hh hmeas
        rw [hh]
        exact ih _ _ (by omega)
    | some n =>
      by_cases hlt : B.length < n
      · rw [processBuf_need_body ⟨B, some n⟩ rfl hlt]
        exact processBuf_need_body ⟨B, some n⟩ rfl hlt
      · have hb := processBuf_body ⟨B, some n⟩ rfl hlt
        have hmeas := mbMeasure_drop_body ⟨B, some n⟩ rfl
        simp only [] at hb hmeas
        rw [hb]
        cases hp : parseJson (utf8Decode (B.take n)) with
        | none =>
          simp only []
          exact ih _ _ (by omega)
        | some j =>
          simp only []
          exact ih _ _ (by omega)

theorem processBuf_stuck (st : MessageBuffer) :
    processBuf (processBuf st).2 = ([], (processBuf st).2) :=
  processBuf_stuck_aux (mbMeasure st) st.buffer st.contentLength (le_refl _)

theorem feed_append (st : MessageBuffer) (a b : List Nat) :
    st.feed (a ++ b) =
      ((st.feed a).1 ++ ((st.feed a).2.feed b).1, ((st.feed a).2.feed b).2) := by
  unfold MessageBuffer.feed
  rw [← List.append_assoc]
  exact processBuf_append_aux (mbMeasure ⟨st.buffer ++ a, st.contentLength⟩)
    (st.buffer ++ a) b st.contentLength (le_refl _)

/-- Feed a list of chunks one at a time, collecting all decoded messages
in order. -/
def feedAll (st : MessageBuffer) : List (List Nat) → List Json × MessageBuffer
  | [] => ([], st)
  | c :: cs =>
    let p := st.feed c
    let q := feedAll p.2 cs
    (p.1 ++ q.1, q.2)

theorem feedAll_eq_feed_flatten (chunks : List (List Nat)) :
    ∀ (st : MessageBuffer), processBuf st = ([], st) →
    feedAll st chunks = st.feed chunks.flatten := by
  induction chunks with
  | nil =>
    intro st hq
    show ([], st) = st.feed []
    unfold MessageBuffer.feed
    rw [List.append_nil]
    exact hq.symm
  | cons c cs ih =>
    intro st hq
    show ((st.feed c).1 ++ (feedAll (st.feed c).2 cs).1, (feedAll (st.feed c).2 cs).2) =
      st.feed (c ++ cs.flatten)
    rw [feed_append]
    have hstuck : processBuf (st.feed c).2 = ([], (st.feed c).2) := by
      unfold MessageBuffer.feed
      exact processBuf_stuck ⟨st.buffer ++ c, st.contentLength⟩
    rw [ih (st.feed c).2 hstuck]


theorem digit_ne_cr {c : Char} (h : c.isDigit = true) : c ≠ '\r' := by
  intro heq
  subst heq
  exact absurd h (by decide)

theorem byte13_utf8Char {c : Char} (h : (13 : Nat) ∈ utf8Char c) : c = '\r' := by
  unfold utf8Char at h
  by_cases h1 : c.toNat < 0x80
  · simp only [h1, if_true, List.mem_singleton] at h
    conv_lhs => rw [← char_ofNat_toNat c]
    rw [← h]
  · by_cases h2 : c.toNat < 0x800
    · simp only [h1, h2, if_false, if_true, List.mem_cons, List.not_mem_nil,
        or_false] at h
      omega
    · by_cases h3 : c.toNat < 0x10000
      · simp only [h1, h2, h3, if_false, if_true, List.mem_cons,
          List.not_mem_nil, or_false] at h
        omega
      · simp only [h1, h2, h3, if_false, List.mem_cons, List.not_mem_nil,
          or_false] at h
        omega

theorem byte13_utf8Encode {s : String} (hs : '\r' ∉ s.toList) :
    (13 : Nat) ∉ utf8Encode s := by
  intro hmem
  obtain ⟨c, hc, hin⟩ := List.mem_flatMap.mp hmem
  exact hs (byte13_utf8Char hin ▸ hc)

theorem toList_append (a b : String) : (a ++ b).toList = a.toList ++ b.toList := by
  cases a
  cases b
  rfl

theorem utf8Encode_append (a b : String) :
    utf8Encode (a ++ b) = utf8Encode a ++ utf8Encode b := by
  unfold utf8Encode
  rw [toList_append, List.flatMap_append]

theorem dropCaseInsensitive_self (p r : List Char) :
    dropCaseInsensitive p (p ++ r) = some r := by
  induction p with
  | nil => rfl
  | cons c cs ih => simp [dropCaseInsensitive, ih]

theorem digit_not_wsRe {c : Char} (h : c.isDigit = true) : isWsRe c = false := by
  unfold isWsRe
  by_contra hcon
  simp only [Bool.not_eq_false, Bool.or_eq_true, decide_eq_true_eq] at hcon
  rcases hcon with ((((h1 | h1) | h1) | h1) | h1) | h1 <;> subst h1 <;>
    exact absurd h (by decide)

theorem findContentLength_header (L : Nat) :
    findContentLength ("Content-Length: " ++ (natToChars L).asString) = some L := by
  unfold findContentLength
  rw [toList_append, toList_asString]
  have hsplit : ("Content-Length: ").toList = "Content-Length:".toList ++ [' '] := by
    decide
  rw [hsplit, List.append_assoc]
  obtain ⟨d, ds, heq, hdig⟩ : ∃ d ds, natToChars L = d :: ds ∧ d.isDigit = true := by
    cases hnn : natToChars L with
    | nil => exact absurd hnn (natToChars_ne_nil _)
    | cons d ds =>
      exact ⟨d, ds, rfl, natToChars_digits _ d (hnn ▸ List.mem_cons_self d ds)⟩
  have hat : contentLengthAt ("Content-Length:".toList ++ ([' '] ++ natToChars L)) =
      some L := by
    unfold contentLengthAt
    rw [dropCaseInsensitive_self]
    simp only [List.singleton_append]
    rw [show List.dropWhile isWsRe (' ' :: natToChars L) =
      List.dropWhile isWsRe (natToChars L) from by
        simp [List.dropWhile_cons, isWsRe]]
    rw [heq]
    rw [show List.dropWhile isWsRe (d :: ds) = d :: ds from by
      simp [List.dropWhile_cons, digit_not_wsRe hdig]]
    have hall : ∀ c ∈ d :: ds, c.isDigit = true := fun c hc =>
      natToChars_digits L c (heq ▸ hc)
    have htw := (takeWhile_append_all (d :: ds) [] hall (fun c hc => by simp at hc)).1
    rw [List.append_nil] at htw
    rw [htw]
    simp only [List.isEmpty_cons, Bool.false_eq_true, if_false]
    rw [← heq, digitsToNat_natToChars]
  show findContentLength' ("Content-Length:".toList ++ ([' '] ++ natToChars L)) = some L
  rw [show ("Content-Length:".toList ++ ([' '] ++ natToChars L)) =
    'C' :: ("ontent-Length:".toList ++ ([' '] ++ natToChars L)) from rfl]
  unfold findContentLength'
  rw [show ('C' :: ("ontent-Length:".toList ++ ([' '] ++ natToChars L))) =
    ("Content-Length:".toList ++ ([' '] ++ natToChars L)) from rfl, hat]

/-- The byte stream of one frame carrying an arbitrary body string:
`Content-Length` header with the body's UTF-8 byte length, terminator,
body.  `encodeMessage msg` is `encodeFrame (serialize msg)`. -/
def encodeFrame (body : String) : List Nat :=
  utf8Encode ("Content-Length: " ++ (natToChars (byteLength body)).asString ++
    "\r\n\r\n" ++ body)

theorem encodeMessage_eq_frame (msg : Json) :
    encodeMessage msg = encodeFrame (serialize msg) := rfl

theorem feed_frame (body : String) :
    MessageBuffer.empty.feed (encodeFrame body) =
      ((match parseJson body with | some j => [j] | none => []),
        MessageBuffer.empty) := by
  have hdecomp : encodeFrame body =
      utf8Encode ("Content-Length: " ++ (natToChars (byteLength body)).asString) ++
        (CRLFCRLF ++ utf8Encode body) := by
    unfold encodeFrame
    rw [utf8Encode_append, utf8Encode_append]
    rw [show utf8Encode "\r\n\r\n" = CRLFCRLF from rfl]
    rw [List.append_assoc]
  have h13 : (13 : Nat) ∉
      utf8Encode ("Content-Length: " ++ (natToChars (byteLength body)).asString) := by
    apply byte13_utf8Encode
    rw [toList_append, toList_asString]
    intro hmem
    rcases List.mem_append.mp hmem with h | h
    · exact absurd h (by decide)
    · exact digit_ne_cr (natToChars_digits _ _ h) rfl
  unfold MessageBuffer.feed MessageBuffer.empty
  simp only [List.nil_append]
  rw [hdecomp]
  have hfs : findSub CRLFCRLF
      (utf8Encode ("Content-Length: " ++ (natToChars (byteLength body)).asString) ++
        (CRLFCRLF ++ utf8Encode body)) =
      some (utf8Encode ("Content-Length: " ++
        (natToChars (byteLength body)).asString)).length :=
    findSub_at_boundary _ h13
  rw [processBuf_header _ rfl hfs]
  simp only [List.take_left]
  rw [utf8Decode_encode, findContentLength_header]
  have hdrop : List.drop
      ((utf8Encode ("Content-Length: " ++
        (natToChars (byteLength body)).asString)).length + 4)
      (utf8Encode ("Content-Length: " ++
        (natToChars (byteLength body)).asString) ++
        (CRLFCRLF ++ utf8Encode body)) = utf8Encode body := by
    rw [List.drop_append]
    rfl
  rw [hdrop]
  have hne : ¬ (utf8Encode body).length < byteLength body := by
    unfold byteLength
    omega
  rw [processBuf_body _ rfl hne]
  simp only [byteLength, List.take_length, List.drop_length]
  rw [utf8Decode_encode]
  cases hp : parseJson body with
  | some j =>
    simp only []
    rw [processBuf_no_header ⟨[], none⟩ rfl (by rfl)]
  | none =>
    simp only []
    exact processBuf_no_header ⟨[], none⟩ rfl (by rfl)

theorem feed_encodeMessage (msg : Json) :
    MessageBuffer.empty.feed (encodeMessage msg) = ([msg], MessageBuffer.empty) := by
  rw [encodeMessage_eq_frame, feed_frame, parseJson_serialize]

theorem feed_empty_data : MessageBuffer.empty.feed [] = ([], MessageBuffer.empty) := by
  unfold MessageBuffer.feed MessageBuffer.empty
  simp only [List.nil_append]
  exact processBuf_no_header ⟨[], none⟩ rfl (by rfl)

theorem feed_encodeMessages : ∀ msgs : List Json,
    MessageBuffer.empty.feed (msgs.map encodeMessage).flatten =
      (msgs, MessageBuffer.empty) := by
  intro msgs
  induction msgs with
  | nil =>
    show MessageBuffer.empty.feed [] = _
    exact feed_empty_data
  | cons m ms ih =>
    show MessageBuffer.empty.feed
      (encodeMessage m ++ (ms.map encodeMessage).flatten) = _
    rw [feed_append, feed_encodeMessage]
    simp only []
    rw [ih]
    simp


/-! ## Environment and adapter state

The adapter's external collaborators (filesystem, environment variables,
the `grep` subprocess) are abstracted as an `Env`; its module-level
mutable variables (source lines 96, 99, 264) as an `AdapterState`. -/

/-- External collaborators: the process working directory, the filesystem
(`fs.statSync(p).isDirectory()` with `none` for a thrown error), the
`TAILWIND_CSS_ENTRYPOINT` environment variable, and the `grep` subprocess
(`none` models a nonzero exit, timeout or spawn failure; `some out` its
standard output). -/
structure Env where
  cwd : String
  stat : String → Option Bool
  envEntrypoint : Option String
  grep : String → Option String

/-- Module-level mutable state: `workspaceRoot` (line 96), the tri-state
entry-point cache `detectedCssEntrypoint` (line 99; `none` models
`undefined` = not searched yet, `some v` a cached outcome), and the
`registeredCapabilities` map (line 264, keyed by `reg.id` with the
recorded `method`/`registerOptions`, `none` modelling `undefined`). -/
structure AdapterState where
  workspaceRoot : Option String
  detectedCssEntrypoint : Option (Option String)
  registeredCapabilities : List (Option Json × (Option Json × Option Json))
deriving DecidableEq

/-- State at process start. -/
def AdapterState.initial : AdapterState := ⟨none, none, []⟩

/-- Model of `Map.set`: replace the entry in place or append it. -/
def mapSet (m : List (Option Json × (Option Json × Option Json)))
    (k : Option Json) (v : Option Json × Option Json) :
    List (Option Json × (Option Json × Option Json)) :=
  match m with
  | [] => [(k, v)]
  | (k0, v0) :: rest => if k0 = k then (k0, v) :: rest else (k0, v0) :: mapSet rest k v

/-- Model of `Map.delete`. -/
def mapDelete (m : List (Option Json × (Option Json × Option Json)))
    (k : Option Json) : List (Option Json × (Option Json × Option Json)) :=
  m.filter (fun e => e.1 ≠ k)

/-! ## Character-level string operations

JS string operations, modelled over the character list of a `String` (so
that they evaluate by kernel reduction on concrete inputs). -/

/-- Does the second list occur at the start of the first? -/
def startsWithCh : List Char → List Char → Bool
  | _, [] => true
  | [], _ :: _ => false
  | a :: as, b :: bs => a = b && startsWithCh as bs

/-- Model of JS `s.startsWith(t)`. -/
def sStartsWith (s t : String) : Bool := startsWithCh s.toList t.toList

/-- Model of JS `s.endsWith(t)`. -/
def sEndsWith (s t : String) : Bool :=
  startsWithCh s.toList.reverse t.toList.reverse

/-- Model of JS `s.substring(n)` (drop the first `n` characters). -/
def sDrop (s : String) (n : Nat) : String := (s.toList.drop n).asString

/-- Split a character list on a separator character (JS `split` with a
one-character separator: `""` splits to `[""]`, separators at the edges
produce empty pieces). -/
def splitOnChar (c : Char) : List Char → List (List Char)
  | [] => [[]]
  | x :: xs =>
    let r := splitOnChar c xs
    if x = c then [] :: r
    else
      match r with
      | [] => [[x]]
      | y :: ys => (x :: y) :: ys

/-- Model of JS `s.split(c)` for a one-character separator. -/
def sSplitOn (s : String) (c : Char) : List String :=
  (splitOnChar c s.toList).map List.asString

/-- The whitespace stripped by `trim` (the forms that occur here). -/
def isTrimWs (c : Char) : Bool := c = ' ' || c = '\t' || c = '\n' || c = '\r'

/-- Model of JS `s.trim()`. -/
def sTrim (s : String) : String :=
  (((s.toList.dropWhile isTrimWs).reverse.dropWhile isTrimWs).reverse).asString

/-- Join character lists with a one-character separator (model of
`join(c)` on an array of strings). -/
def joinSepCh (c : Char) : List (List Char) → List Char
  | [] => []
  | [x] => x
  | x :: y :: ys => x ++ c :: joinSepCh c (y :: ys)

/-- Model of JS `parts.join(c)`. -/
def sJoin (c : Char) (parts : List String) : String :=
  (joinSepCh c (parts.map String.toList)).asString

/-! ## Workspace validator -/

/-- The deny-list of system-critical workspace roots (source line 65). -/
def FORBIDDEN_PATHS : List String :=
  ["/etc", "/usr", "/bin", "/sbin", "/var", "/root", "/sys", "/proc", "/dev"]

/-- Normalize an absolute path: fold empty, `.` and `..` segments (model
of Node `path.resolve` normalization; `..` at the root is dropped). -/
def normalizeAbs (p : String) : String :=
  let segs := (sSplitOn p '/').foldl
    (fun acc seg =>
      if seg = "" ∨ seg = "." then acc
      else if seg = ".." then acc.dropLast
      else acc ++ [seg]) []
  "/" ++ sJoin '/' segs

/-- Model of Node's `resolve(p)`: relative paths are resolved against the
working directory, then the result is normalized. -/
def resolvePath (cwd p : String) : String :=
  if sStartsWith p "/" then normalizeAbs p else normalizeAbs (cwd ++ "/" ++ p)

/-- Model of `validateWorkspacePath` (source lines 71–89): `none` is the
rejection (`null`), `some resolved` acceptance in canonical form. -/
def validateWorkspacePath (env : Env) (rootPath : String) : Option String :=
  let resolved := resolvePath env.cwd rootPath
  if FORBIDDEN_PATHS.any (fun f => resolved = f || sStartsWith resolved (f ++ "/")) then
    none
  else
    match env.stat resolved with
    | none => none
    | some false => none
    | some true => some resolved

/-! ## Entry-point resolver -/

/-- The fixed filename priority list (source line 143). -/
def PRIORITIES : List String :=
  ["index.css", "app.css", "styles.css", "global.css", "main.css"]

/-- The priority-selection loop over grep matches (source lines 143–152):
for the first priority name with a match, the first file whose path ends
in `/src/<name>` or `/<name>`. -/
def selectBestMatch (files : List String) : Option String :=
  PRIORITIES.findSome? (fun p =>
    files.find? (fun f => sEndsWith f ("/src/" ++ p) || sEndsWith f ("/" ++ p)))

/-- Result of one resolver call: the returned value, the state after the
call, and — observational instrumentation only — whether the `grep`
subprocess was invoked during the call. -/
structure DetectOut where
  value : Option String
  state : AdapterState
  searched : Bool
deriving DecidableEq

/-- Continuation of the resolver past the cache and env-var checks
(source lines 118–171). -/
def detectSearch (env : Env) (st : AdapterState) : DetectOut :=
  match st.workspaceRoot with
  | none => ⟨none, { st with detectedCssEntrypoint := some none }, false⟩
  | some root =>
    match env.grep root with
    | none => ⟨none, { st with detectedCssEntrypoint := some none }, true⟩
    | some out =>
      let result := sJoin '\n' ((sSplitOn (sTrim out) '\n').take 5)
      if result ≠ "" then
        let files := (sSplitOn result '\n').filter (fun f => f ≠ "")
        let bestMatch := (selectBestMatch files).getD (files.headD "")
        let rel :=
          if sStartsWith bestMatch root then sDrop bestMatch (root.length + 1)
          else bestMatch
        ⟨some rel, { st with detectedCssEntrypoint := some (some rel) }, true⟩
      else ⟨none, { st with detectedCssEntrypoint := some none }, true⟩

/-- Model of `detectTailwindV4Entrypoint` (source lines 105–172). -/
def detectTailwindV4Entrypoint (env : Env) (st : AdapterState) : DetectOut :=
  match st.detectedCssEntrypoint with
  | some cached => ⟨cached, st, false⟩
  | none =>
    match env.envEntrypoint with
    | some s => if s ≠ "" then
        ⟨some s, { st with detectedCssEntrypoint := some (some s) }, false⟩
      else detectSearch env st
    | none => detectSearch env st

/-! ## JSON field access (JavaScript object semantics) -/

/-- Property lookup: `none` models `undefined` (also for non-objects;
property access on `null`/`undefined` itself would throw in JS, which the
engine's guards avoid). -/
def JsonFields.get : JsonFields → String → Option Json
  | .nil, _ => none
  | .cons k v fs, key => if k = key then some v else JsonFields.get fs key

/-- Property lookup on a JSON value. -/
def Json.getField (j : Json) (key : String) : Option Json :=
  match j with
  | .obj fs => fs.get key
  | _ => none

/-- JavaScript assignment `obj[key] = v` / spread-override: replace the
value in place, or append the key. -/
def JsonFields.set : JsonFields → String → Json → JsonFields
  | .nil, k, v => .cons k v .nil
  | .cons k0 v0 fs, k, v =>
    if k0 = k then .cons k0 v fs else .cons k0 v0 (JsonFields.set fs k v)

/-- Fields contributed by spreading a value (`{...v}`): an object's own
fields, nothing for `null`/`undefined`/absent.  (JS would spread a
string's indices; the adapter never spreads a string.) -/
def spreadFields : Option Json → JsonFields
  | some (.obj fs) => fs
  | _ => .nil

/-- JavaScript truthiness of a JSON value. -/
def Json.truthy : Json → Bool
  | .null => false
  | .bool b => b
  | .num n => decide (n ≠ 0)
  | .str s => decide (s ≠ "")
  | .arr _ => true
  | .obj _ => true

/-- The elements of an array-valued field (`[]` when absent or falsy;
iterating a truthy non-array would throw in JS — the adapter's peers send
arrays). -/
def Json.asArray : Option Json → List Json
  | some (.arr xs) => xs.toList
  | _ => []

/-- JavaScript `a || b` over optional field values: the first operand when
present and truthy, otherwise the second. -/
def jsOr (a b : Option Json) : Option Json :=
  match a with
  | some v => if v.truthy then some v else b
  | none => b

/-- The `id` to echo into a synthesized response (`msg.id!`; the dispatch
guarantees presence). -/
def Json.idVal (msg : Json) : Json := (msg.getField "id").getD .null

/-! ## Intercepted method handlers -/

/-- Model of `handleRegisterCapability` (source lines 278–291): record
each registration and synthesize `{jsonrpc: "2.0", id: msg.id, result:
null}`. -/
def handleRegisterCapability (st : AdapterState) (msg : Json) :
    AdapterState × Json :=
  let registrations :=
    Json.asArray (jsOr ((msg.getField "params").bind (·.getField "registrations")) none)
  let st' := registrations.foldl
    (fun s reg =>
      { s with registeredCapabilities :=
          (mapSet s.registeredCapabilities (reg.getField "id")
            (reg.getField "method", reg.getField "registerOptions")) }) st
  (st', .obj (.cons "jsonrpc" (.str "2.0")
    (.cons "id" msg.idVal (.cons "result" .null .nil))))

/-- Model of `handleUnregisterCapability` (source lines 297–304),
accepting either field-name spelling. -/
def handleUnregisterCapability (st : AdapterState) (msg : Json) :
    AdapterState × Json :=
  let unregistrations :=
    Json.asArray (jsOr ((msg.getField "params").bind (·.getField "unregisterations"))
      ((msg.getField "params").bind (·.getField "unregistrations")))
  let st' := unregistrations.foldl
    (fun s unreg =>
      { s with registeredCapabilities :=
          (mapDelete s.registeredCapabilities (unreg.getField "id")) }) st
  (st', .obj (.cons "jsonrpc" (.str "2.0")
    (.cons "id" msg.idVal (.cons "result" .null .nil))))

/-- The fixed `tailwindCSS` settings object (source lines 320–340) with
the resolved entry point embedded at `experimental.configFile`. -/
def tailwindDefaults (entry : Option String) : Json :=
  .obj (.cons "emmetCompletions" (.bool false)
    (.cons "includeLanguages" (.obj .nil)
    (.cons "classAttributes" (.arr (.cons (.str "class")
      (.cons (.str "className") (.cons (.str "ngClass") .nil))))
    (.cons "lint" (.obj (.cons "cssConflict" (.str "warning")
      (.cons "invalidApply" (.str "error")
      (.cons "invalidScreen" (.str "error")
      (.cons "invalidVariant" (.str "error")
      (.cons "invalidConfigPath" (.str "error")
      (.cons "invalidTailwindDirective" (.str "error")
      (.cons "recommendedVariantOrder" (.str "warning") .nil))))))))
    (.cons "experimental" (.obj (.cons "configFile"
      (match entry with | some s => .str s | none => .null) .nil))
    (.cons "showPixelEquivalents" (.bool true)
    (.cons "rootFontSize" (.num 16) .nil)))))))

/-- Model of `handleWorkspaceConfiguration` (source lines 310–353):
one result per requested item, in order — the Tailwind defaults for
section `tailwindCSS` (invoking the resolver), `{tabSize: 2}` for
`editor`, `{}` otherwise. -/
def handleWorkspaceConfiguration (env : Env) (st : AdapterState) (msg : Json) :
    AdapterState × Json :=
  let items := Json.asArray ((msg.getField "params").bind (·.getField "items"))
  let step := fun (acc : AdapterState × List Json) (item : Json) =>
    if item.getField "section" = some (.str "tailwindCSS") then
      let d := detectTailwindV4Entrypoint env acc.1
      (d.state, acc.2 ++ [tailwindDefaults d.value])
    else if item.getField "section" = some (.str "editor") then
      (acc.1, acc.2 ++ [.obj (.cons "tabSize" (.num 2) .nil)])
    else (acc.1, acc.2 ++ [.obj .nil])
  let r := items.foldl step (st, [])
  (r.1, .obj (.cons "jsonrpc" (.str "2.0")
    (.cons "id" msg.idVal
    (.cons "result" (.arr (JsonList.ofList r.2)) .nil))))

/-- Model of `handleWorkDoneProgressCreate` (source lines 359–365). -/
def handleWorkDoneProgressCreate (st : AdapterState) (msg : Json) :
    AdapterState × Json :=
  (st, .obj (.cons "jsonrpc" (.str "2.0")
    (.cons "id" msg.idVal (.cons "result" .null .nil))))


/-! ## Initialize-request patching -/

/-- Decode the bytes of a percent-encoded component: `%XY` hex escapes
become single bytes, other characters their UTF-8 bytes.  (A malformed
escape would make `decodeURIComponent` throw in JS; here the `%` is kept
verbatim.) -/
def pctBytesAux : Nat → List Char → List Nat
  | 0, _ => []
  | _, [] => []
  | fuel+1, c :: rest =>
    if c = '%' then
      match rest with
      | h1 :: h2 :: rest2 =>
        match hexVal h1, hexVal h2 with
        | some a, some b => (a * 16 + b) :: pctBytesAux fuel rest2
        | _, _ => utf8Char '%' ++ pctBytesAux fuel rest
      | _ => utf8Char '%' ++ pctBytesAux fuel rest
    else utf8Char c ++ pctBytesAux fuel rest

/-- Entry point: the character count bounds the number of steps. -/
def pctBytes (cs : List Char) : List Nat := pctBytesAux cs.length cs

/-- Model of `decodeURIComponent`: decode the percent-escaped byte
sequence as UTF-8. -/
def decodeURIComponentModel (s : String) : String :=
  utf8Decode (pctBytes s.toList)

/-- The `workspace` capability rewrites of `patchInitializeRequest`
(source lines 715–724), as sequential JS mutations. -/
def patchWorkspace (ws : JsonFields) : JsonFields :=
  let ws := ws.set "didChangeConfiguration" (.obj
    ((spreadFields (ws.get "didChangeConfiguration")).set "dynamicRegistration" (.bool true)))
  let ws := ws.set "configuration" (.bool true)
  let ws := ws.set "workspaceFolders" (.bool true)
  let ws := ws.set "didChangeWatchedFiles" (.obj
    ((spreadFields (ws.get "didChangeWatchedFiles")).set "dynamicRegistration" (.bool true)))
  ws

/-- The `valueSet` of code-action kinds (source lines 750–763). -/
def codeActionKinds : List String :=
  ["", "quickfix", "quickfix.extractVariable", "quickfix.extractFunction",
   "refactor", "refactor.extract", "refactor.inline", "refactor.rewrite",
   "source", "source.organizeImports", "source.fixAll", "source.sortImports"]

/-- The `textDocument` capability rewrites of `patchInitializeRequest`
(source lines 727–796), as sequential JS mutations; each object literal
is evaluated against the value the field had before its own assignment. -/
def patchTextDocument (td : JsonFields) : JsonFields :=
  let compOld := td.get "completion"
  let td := td.set "completion" (.obj
    (((spreadFields compOld).set "dynamicRegistration" (.bool true)).set "completionItem"
      (.obj (((spreadFields ((spreadFields compOld).get "completionItem")).set
          "snippetSupport" (.bool true)).set "documentationFormat"
          (.arr (.cons (.str "markdown") (.cons (.str "plaintext") .nil)))))))
  let td := td.set "hover" (.obj
    (((spreadFields (td.get "hover")).set "dynamicRegistration" (.bool true)).set
      "contentFormat" (.arr (.cons (.str "markdown") (.cons (.str "plaintext") .nil)))))
  let td := td.set "colorProvider" (.obj
    ((spreadFields (td.get "colorProvider")).set "dynamicRegistration" (.bool true)))
  let td := td.set "codeAction" (.obj
    (((((((spreadFields (td.get "codeAction")).set "dynamicRegistration" (.bool true)).set
      "codeActionLiteralSupport" (.obj (.cons "codeActionKind"
        (.obj (.cons "valueSet" (.arr (JsonList.ofList (codeActionKinds.map Json.str))) .nil)) .nil))).set
      "resolveSupport" (.obj (.cons "properties" (.arr (.cons (.str "edit")
        (.cons (.str "command") (.cons (.str "documentation") (.cons (.str "detail") .nil))))) .nil))).set
      "dataSupport" (.bool true)).set "isPreferredSupport" (.bool true)).set
      "disabledSupport" (.bool true) |>.set "honorsChangeAnnotations" (.bool true)))
  let td := td.set "diagnostic" (.obj
    ((spreadFields (td.get "diagnostic")).set "dynamicRegistration" (.bool true)))
  let td := td.set "formatting" (.obj
    ((spreadFields (td.get "formatting")).set "dynamicRegistration" (.bool true)))
  let td := td.set "rangeFormatting" (.obj
    ((spreadFields (td.get "rangeFormatting")).set "dynamicRegistration" (.bool true)))
  let td := td.set "rename" (.obj
    (((((spreadFields (td.get "rename")).set "dynamicRegistration" (.bool true)).set
      "prepareSupport" (.bool true)).set "prepareSupportDefaultBehavior" (.num 1)).set
      "honorsChangeAnnotations" (.bool false)))
  td

/-- The workspace-root capture of `patchInitializeRequest` (source lines
686–707): on a truthy string root (decoding a `file://` URI first), a
successful validation stores the canonical root and triggers detection;
otherwise the state is untouched.  (A truthy non-string root would make
`.startsWith` throw in JS; the model leaves the state unchanged.) -/
def captureWorkspaceRoot (env : Env) (st : AdapterState) (msg : Json) :
    AdapterState :=
  match jsOr ((msg.getField "params").bind (·.getField "rootUri"))
      ((msg.getField "params").bind (·.getField "rootPath")) with
  | some v =>
    if v.truthy then
      match v with
      | .str s =>
        let rawPath := if sStartsWith s "file://" then
            decodeURIComponentModel (sDrop s 7) else s
        match validateWorkspacePath env rawPath with
        | some validated =>
          (detectTailwindV4Entrypoint env { st with workspaceRoot := some validated }).state
        | none => st
      | _ => st
    else st
  | none => st

/-- Model of `patchInitializeRequest` (source lines 682–806): on an
`initialize` request, capture the workspace root and rewrite
`params.capabilities`; any other message passes through unchanged.
(A truthy non-object `params` or `capabilities` would make the JS
assignments throw; the model spreads them as empty.) -/
def patchInitializeRequest (env : Env) (st : AdapterState) (msg : Json) :
    AdapterState × Json :=
  if msg.getField "method" ≠ some (.str "initialize") then (st, msg)
  else
    let st1 := captureWorkspaceRoot env st msg
    let params := spreadFields (msg.getField "params")
    let capabilities := spreadFields (params.get "capabilities")
    let workspace := patchWorkspace (spreadFields (capabilities.get "workspace"))
    let textDocument := patchTextDocument (spreadFields (capabilities.get "textDocument"))
    let capabilities := capabilities.set "window" (.obj
      ((spreadFields (capabilities.get "window")).set "workDoneProgress" (.bool true)))
    let capabilities := (capabilities.set "workspace" (.obj workspace)).set
      "textDocument" (.obj textDocument)
    let params := params.set "capabilities" (.obj capabilities)
    (st1, .obj ((spreadFields (some msg)).set "params" (.obj params)))

/-! ## Main dispatch -/

/-- One client→server message (source lines 855–894, logging omitted):
it is patched and forwarded to the server. -/
def processClientMessage (env : Env) (st : AdapterState) (msg : Json) :
    AdapterState × Json :=
  patchInitializeRequest env st msg

/-- One server→client message (source lines 899–972, logging and the
`pendingRequests` log bookkeeping omitted): the new state, the responses
written back to the server, and the messages forwarded to the client. -/
def processServerMessage (env : Env) (st : AdapterState) (msg : Json) :
    AdapterState × List Json × List Json :=
  let methodTruthy := match msg.getField "method" with
    | some m => m.truthy
    | none => false
  let hasId := (msg.getField "id").isSome
  if methodTruthy && hasId then
    if msg.getField "method" = some (.str "client/registerCapability") then
      let r := handleRegisterCapability st msg
      (r.1, [r.2], [])
    else if msg.getField "method" = some (.str "client/unregisterCapability") then
      let r := handleUnregisterCapability st msg
      (r.1, [r.2], [])
    else if msg.getField "method" = some (.str "workspace/configuration") then
      let r := handleWorkspaceConfiguration env st msg
      (r.1, [r.2], [])
    else if msg.getField "method" = some (.str "window/workDoneProgress/create") then
      let r := handleWorkDoneProgressCreate st msg
      (r.1, [r.2], [])
    else (st, [], [msg])
  else if methodTruthy && !hasId then
    if msg.getField "method" = some (.str "$/progress") then (st, [], [])
    else if msg.getField "method" = some (.str "window/logMessage") then (st, [], [])
    else (st, [], [msg])
  else (st, [], [msg])

/-! ## Helper lemmas for the engine, and concrete fixtures -/

/-- `ofList` and `toList` are inverse. -/
theorem JsonList.toList_ofList (xs : List Json) : (JsonList.ofList xs).toList = xs := by
  induction xs with
  | nil => rfl
  | cons x xs ih => simp [JsonList.ofList, JsonList.toList, ih]

/-- Looking up the key just assigned yields the assigned value. -/
theorem JsonFields.get_set_self : ∀ (fs : JsonFields) (k : String) (v : Json),
    (fs.set k v).get k = some v
  | .nil, k, v => by simp [JsonFields.set, JsonFields.get]
  | .cons k0 v0 fs, k, v => by
    by_cases h : k0 = k
    · simp [JsonFields.set, JsonFields.get, h]
    · simp [JsonFields.set, JsonFields.get, h, get_set_self fs k v]

/-- Assigning one key leaves every other key's value unchanged. -/
theorem JsonFields.get_set_ne : ∀ (fs : JsonFields) (k k' : String) (v : Json),
    k' ≠ k → (fs.set k' v).get k = fs.get k
  | .nil, k, k', v, h => by simp [JsonFields.set, JsonFields.get, h]
  | .cons k0 v0 fs, k, k', v, h => by
    by_cases h0 : k0 = k'
    · subst h0; simp [JsonFields.set, JsonFields.get, h]
    · simp only [JsonFields.set, if_neg h0, JsonFields.get]
      by_cases hk : k0 = k
      · simp [hk]
      · simp [hk, get_set_ne fs k k' v h]

/-- Spreading an object contributes exactly its fields. -/
theorem spreadFields_obj (fs : JsonFields) : spreadFields (some (.obj fs)) = fs := rfl

/-- The resolver never changes the stored workspace root. -/
theorem detect_preserves_root (env : Env) (st : AdapterState) :
    (detectTailwindV4Entrypoint env st).state.workspaceRoot = st.workspaceRoot := by
  unfold detectTailwindV4Entrypoint detectSearch
  repeat' split
  all_goals try rfl
  all_goals (simp only []; split <;> rfl)

/-- With a settled cache, the per-item fold of the configuration handler
maps each item independently and leaves the state unchanged. -/
theorem wsc_fold (env : Env) (cached : Option String) :
    ∀ (items : List Json) (st : AdapterState) (acc : List Json),
    st.detectedCssEntrypoint = some cached →
    items.foldl (fun (acc : AdapterState × List Json) (item : Json) =>
      if item.getField "section" = some (.str "tailwindCSS") then
        ((detectTailwindV4Entrypoint env acc.1).state,
          acc.2 ++ [tailwindDefaults (detectTailwindV4Entrypoint env acc.1).value])
      else if item.getField "section" = some (.str "editor") then
        (acc.1, acc.2 ++ [Json.obj (.cons "tabSize" (.num 2) .nil)])
      else (acc.1, acc.2 ++ [Json.obj .nil])) (st, acc)
    = (st, acc ++ items.map (fun item =>
        if item.getField "section" = some (.str "tailwindCSS") then tailwindDefaults cached
        else if item.getField "section" = some (.str "editor") then
          Json.obj (.cons "tabSize" (.num 2) .nil)
        else Json.obj .nil))
  | [], st, acc, hc => by simp
  | x :: xs, st, acc, hc => by
    have hdet : detectTailwindV4Entrypoint env st = ⟨cached, st, false⟩ := by
      unfold detectTailwindV4Entrypoint
      rw [hc]
    by_cases h1 : x.getField "section" = some (.str "tailwindCSS")
    · simp only [List.foldl_cons, List.map_cons, if_pos h1, hdet]
      rw [wsc_fold env cached xs st _ hc]
      simp
    · by_cases h2 : x.getField "section" = some (.str "editor")
      · simp only [List.foldl_cons, List.map_cons, if_neg h1, if_pos h2]
        rw [wsc_fold env cached xs st _ hc]
        simp
      · simp only [List.foldl_cons, List.map_cons, if_neg h1, if_neg h2]
        rw [wsc_fold env cached xs st _ hc]
        simp

/-- The entry-point selection rule as the SPECIFICATION CLAIM words it
(spec-modelled, for comparison with `selectBestMatch`): a priority
filename qualifies only directly in the workspace root or directly in its
`src/` subdirectory. -/
def selectBestMatchClaim (root : String) (files : List String) : Option String :=
  PRIORITIES.findSome? (fun p =>
    files.find? (fun f => f = root ++ "/src/" ++ p || f = root ++ "/" ++ p))

/-- An environment with an empty filesystem and failing grep. -/
def nullEnv : Env := ⟨"/", fun _ => none, none, fun _ => none⟩

/-- A concrete `client/registerCapability` request with identifier 42. -/
def regMsg : Json :=
  .obj (.cons "jsonrpc" (.str "2.0") (.cons "id" (.num 42)
    (.cons "method" (.str "client/registerCapability")
    (.cons "params" (.obj (.cons "registrations" (.arr .nil) .nil)) .nil))))

/-- A concrete `workspace/configuration` request with three sections. -/
def cfgMsg : Json :=
  .obj (.cons "jsonrpc" (.str "2.0") (.cons "id" (.num 7)
    (.cons "method" (.str "workspace/configuration")
    (.cons "params" (.obj (.cons "items" (.arr
      (.cons (.obj (.cons "section" (.str "tailwindCSS") .nil))
      (.cons (.obj (.cons "section" (.str "editor") .nil))
      (.cons (.obj (.cons "section" (.str "custom/thing") .nil)) .nil)))) .nil)) .nil))))

/-- A state with a validated root and a settled entry-point cache. -/
def cfgSt : AdapterState := ⟨some "/proj", some (some "src/index.css"), []⟩

/-- An environment where both `/alpha` and `/beta` are directories. -/
def envC7 : Env :=
  ⟨"/", fun p => if p = "/alpha" ∨ p = "/beta" then some true else none, none, fun _ => none⟩

/-- An `initialize` request declaring root `file:///beta`. -/
def initMsgBeta : Json :=
  .obj (.cons "method" (.str "initialize")
    (.cons "params" (.obj (.cons "rootUri" (.str "file:///beta") .nil)) .nil))

/-- An environment whose grep search would find `/proj/src/index.css`. -/
def envC8 : Env := ⟨"/", fun _ => some true, none, fun _ => some "/proj/src/index.css"⟩

/-- An environment whose grep search finds a plain match and a deeply
nested priority-named match. -/
def envC9 : Env :=
  ⟨"/", fun _ => some true, none, fun _ => some "/proj/a.css\n/proj/deep/nested/index.css"⟩

/-- An `initialize` request whose capabilities already declare
`workspace.configuration = false` and a custom field. -/
def msgC10 : Json :=
  .obj (.cons "method" (.str "initialize")
    (.cons "params" (.obj (.cons "capabilities" (.obj
      (.cons "workspace" (.obj (.cons "configuration" (.bool false) .nil))
      (.cons "myCustom" (.str "keep") .nil))) .nil)) .nil))

/-! ## The claims -/

/-- C1: For every JSON-RPC Message value, encoding it with `encodeMessage`
(a Content-Length header declaring the UTF-8 byte length of the serialized
body, the header terminator, then the body) and feeding the resulting
bytes to a fresh `MessageBuffer` yields exactly one decoded message
deep-equal to the original.  `wellFormed` restricts the quantifier to
values realizable as in-memory JavaScript objects (no duplicate keys). -/
theorem C1_encode_decode_roundtrip (msg : Json) (_hwf : wellFormed msg = true) :
    MessageBuffer.empty.feed (encodeMessage msg) = ([msg], MessageBuffer.empty) :=
  feed_encodeMessage msg

/-- Witness for C1 at a concrete request message. -/
theorem C1_witness :
    wellFormed (Json.obj (.cons "jsonrpc" (.str "2.0")
      (.cons "id" (.num 42) (.cons "result" .null .nil)))) = true ∧
    MessageBuffer.empty.feed (encodeMessage (Json.obj (.cons "jsonrpc" (.str "2.0")
      (.cons "id" (.num 42) (.cons "result" .null .nil))))) =
      ([Json.obj (.cons "jsonrpc" (.str "2.0")
        (.cons "id" (.num 42) (.cons "result" .null .nil)))], MessageBuffer.empty) :=
  ⟨by decide, C1_encode_decode_roundtrip _ (by decide)⟩

/-- C2: For any byte sequence formed by concatenating the encodings of N
messages, and every way of splitting it into chunks, feeding the chunks
one at a time to a `MessageBuffer` produces exactly the same ordered list
of N decoded messages as feeding the whole sequence in a single call. -/
theorem C2_fragmentation_invariance (msgs : List Json) (chunks : List (List Nat))
    (_hwf : ∀ m ∈ msgs, wellFormed m = true)
    (hsplit : chunks.flatten = (msgs.map encodeMessage).flatten) :
    (feedAll MessageBuffer.empty chunks).1 =
      (MessageBuffer.empty.feed (msgs.map encodeMessage).flatten).1 ∧
    (feedAll MessageBuffer.empty chunks).1 = msgs := by
  have hstuck : processBuf MessageBuffer.empty = ([], MessageBuffer.empty) :=
    processBuf_no_header ⟨[], none⟩ rfl (by rfl)
  have h1 := feedAll_eq_feed_flatten chunks MessageBuffer.empty hstuck
  rw [hsplit] at h1
  rw [h1, feed_encodeMessages]
  exact ⟨rfl, rfl⟩

/-- Witness for C2: two messages, split mid-header into two chunks. -/
theorem C2_witness :
    (feedAll MessageBuffer.empty
      [([Json.num 7, Json.str "ok"].map encodeMessage).flatten.take 10,
       ([Json.num 7, Json.str "ok"].map encodeMessage).flatten.drop 10]).1 =
      [Json.num 7, Json.str "ok"] :=
  (C2_fragmentation_invariance [Json.num 7, Json.str "ok"]
    [([Json.num 7, Json.str "ok"].map encodeMessage).flatten.take 10,
     ([Json.num 7, Json.str "ok"].map encodeMessage).flatten.drop 10]
    (by
      intro m hm
      rcases List.mem_cons.mp hm with rfl | hm2
      · rfl
      · rcases List.mem_cons.mp hm2 with rfl | hm3
        · rfl
        · simp at hm3)
    (by
      rw [show [([Json.num 7, Json.str "ok"].map encodeMessage).flatten.take 10,
        ([Json.num 7, Json.str "ok"].map encodeMessage).flatten.drop 10].flatten =
        ([Json.num 7, Json.str "ok"].map encodeMessage).flatten.take 10 ++
        (([Json.num 7, Json.str "ok"].map encodeMessage).flatten.drop 10 ++ []) from rfl]
      rw [List.append_nil, List.take_append_drop])).2

/-- C5: In a single feed call, a header block whose length field is
missing or unparsable is discarded together with its terminator and
decoding continues, returning exactly the following well-formed frame's
message; and a frame whose body fails to parse as JSON is dropped with
decoding resuming at the next frame boundary. -/
theorem C5_malformed_resilience (h bad : String) (msg : Json)
    (hcr : '\r' ∉ h.toList)
    (hno : findContentLength h = none)
    (hbad : parseJson bad = none) :
    MessageBuffer.empty.feed (utf8Encode h ++ (CRLFCRLF ++ encodeMessage msg)) =
      ([msg], MessageBuffer.empty) ∧
    MessageBuffer.empty.feed (encodeFrame bad ++ encodeMessage msg) =
      ([msg], MessageBuffer.empty) := by
  constructor
  · unfold MessageBuffer.feed MessageBuffer.empty
    simp only [List.nil_append]
    have h13 : (13 : Nat) ∉ utf8Encode h := byte13_utf8Encode hcr
    rw [processBuf_header _ rfl (findSub_at_boundary _ h13)]
    simp only [List.take_left]
    rw [utf8Decode_encode, hno]
    have hdrop : List.drop ((utf8Encode h).length + 4)
        (utf8Encode h ++ (CRLFCRLF ++ encodeMessage msg)) = encodeMessage msg := by
      rw [List.drop_append]
      rfl
    rw [hdrop]
    have hfold : processBuf ⟨encodeMessage msg, none⟩ =
        MessageBuffer.empty.feed (encodeMessage msg) := by
      unfold MessageBuffer.feed MessageBuffer.empty
      simp only [List.nil_append]
    rw [hfold, feed_encodeMessage]
    rfl
  · rw [feed_append, feed_frame, hbad]
    simp only []
    rw [feed_encodeMessage]
    simp

/-- Witness for C5: header block `X-Foo: bar` (no length field) and the
unparsable body `{`, each followed by a well-formed frame. -/
theorem C5_witness :
    MessageBuffer.empty.feed (utf8Encode "X-Foo: bar" ++
      (CRLFCRLF ++ encodeMessage (Json.num 1))) = ([Json.num 1], MessageBuffer.empty) ∧
    MessageBuffer.empty.feed (encodeFrame "nope" ++ encodeMessage (Json.num 1)) =
      ([Json.num 1], MessageBuffer.empty) :=
  C5_malformed_resilience "X-Foo: bar" "nope" (Json.num 1)
    (by decide) (by decide) (by decide)

/-- C3: For every server-originated `client/registerCapability` request
carrying an identifier (42 in particular, and generally any), the
dispatch synthesizes exactly one response carrying that identifier, a
null result and no error field, writes it only to the server-bound path,
and forwards nothing derived from the request to the host-bound path. -/
theorem C3_register_capability_response (env : Env) (st : AdapterState) (msg : Json)
    (idv : Json)
    (hm : msg.getField "method" = some (.str "client/registerCapability"))
    (hid : msg.getField "id" = some idv) :
    ((processServerMessage env st msg).2.1).length = 1 ∧
    (processServerMessage env st msg).2.2 = [] ∧
    ∀ resp ∈ (processServerMessage env st msg).2.1,
      resp.getField "id" = some idv ∧
      resp.getField "result" = some Json.null ∧
      resp.getField "error" = none := by
  have hresp : processServerMessage env st msg =
      ((handleRegisterCapability st msg).1, [(handleRegisterCapability st msg).2], []) := by
    unfold processServerMessage
    rw [hm, hid]
    simp [Json.truthy]
  rw [hresp]
  refine ⟨rfl, rfl, ?_⟩
  intro resp hrmem
  simp only [List.mem_singleton] at hrmem
  subst hrmem
  simp only [handleRegisterCapability, Json.idVal, hid, Option.getD_some]
  refine ⟨?_, ?_, ?_⟩ <;> simp [Json.getField, JsonFields.get]

/-- C3 witness: the registration request `regMsg` with identifier 42,
against a fresh state. -/
theorem C3_witness :
    ((processServerMessage nullEnv AdapterState.initial regMsg).2.1).length = 1 ∧
    (processServerMessage nullEnv AdapterState.initial regMsg).2.2 = [] ∧
    (((processServerMessage nullEnv AdapterState.initial regMsg).2.1.headD .null).getField
      "id" = some (.num 42)) ∧
    (((processServerMessage nullEnv AdapterState.initial regMsg).2.1.headD .null).getField
      "result" = some Json.null) ∧
    (((processServerMessage nullEnv AdapterState.initial regMsg).2.1.headD .null).getField
      "error" = none) := by
  have h := C3_register_capability_response nullEnv AdapterState.initial regMsg (.num 42)
    (by decide) (by decide)
  refine ⟨h.1, h.2.1, ?_, ?_, ?_⟩ <;> decide

/-- C4: Once the entry-point cache is settled, a `workspace/configuration`
query is answered with a single server-bound response that carries the
request identifier and one result per requested item in request order:
the fixed Tailwind defaults (with the resolved entry point at
`experimental.configFile`) for section `tailwindCSS`, `{tabSize: 2}` for
`editor`, and `{}` for every other section. -/
theorem C4_workspace_configuration (env : Env) (st : AdapterState) (msg : Json)
    (idv : Json) (items : List Json) (cached : Option String)
    (hm : msg.getField "method" = some (.str "workspace/configuration"))
    (hid : msg.getField "id" = some idv)
    (hitems : (msg.getField "params").bind (fun p => Json.getField p "items") =
      some (.arr (JsonList.ofList items)))
    (hcache : st.detectedCssEntrypoint = some cached) :
    processServerMessage env st msg =
      (st, [Json.obj (.cons "jsonrpc" (.str "2.0") (.cons "id" idv
        (.cons "result" (.arr (JsonList.ofList (items.map (fun item =>
          if item.getField "section" = some (.str "tailwindCSS") then tailwindDefaults cached
          else if item.getField "section" = some (.str "editor") then
            Json.obj (.cons "tabSize" (.num 2) .nil)
          else Json.obj .nil)))) .nil)))], []) := by
  have hh : handleWorkspaceConfiguration env st msg =
      (st, Json.obj (.cons "jsonrpc" (.str "2.0") (.cons "id" idv
        (.cons "result" (.arr (JsonList.ofList (items.map (fun item =>
          if item.getField "section" = some (.str "tailwindCSS") then tailwindDefaults cached
          else if item.getField "section" = some (.str "editor") then
            Json.obj (.cons "tabSize" (.num 2) .nil)
          else Json.obj .nil)))) .nil)))) := by
    unfold handleWorkspaceConfiguration
    rw [hitems]
    simp only [Json.asArray, JsonList.toList_ofList]
    rw [wsc_fold env cached items st [] hcache]
    simp [Json.idVal, hid]
  unfold processServerMessage
  rw [hm, hid]
  simp only [Json.truthy]
  simp [hh]

/-- C4 witness: the three-section query `cfgMsg` against the settled
state `cfgSt`. -/
theorem C4_witness :
    processServerMessage nullEnv cfgSt cfgMsg =
      (cfgSt, [Json.obj (.cons "jsonrpc" (.str "2.0") (.cons "id" (.num 7)
        (.cons "result" (.arr (.cons (tailwindDefaults (some "src/index.css"))
          (.cons (.obj (.cons "tabSize" (.num 2) .nil))
          (.cons (.obj .nil) .nil)))) .nil)))], []) :=
  (C4_workspace_configuration nullEnv cfgSt cfgMsg (.num 7)
    [.obj (.cons "section" (.str "tailwindCSS") .nil),
     .obj (.cons "section" (.str "editor") .nil),
     .obj (.cons "section" (.str "custom/thing") .nil)]
    (some "src/index.css") (by decide) (by decide) (by decide) rfl).trans (by decide)

/-- C6: `validateWorkspacePath` rejects a candidate whose resolved path
equals or is nested under a deny-list entry, rejects when the access
check fails or reports a non-directory, and any accepted path is the
canonical resolved form, is a directory, and avoids the deny-list. -/
theorem C6_validate_workspace_path (env : Env) (p : String) :
    (∀ f ∈ FORBIDDEN_PATHS,
      (resolvePath env.cwd p = f ∨ sStartsWith (resolvePath env.cwd p) (f ++ "/") = true) →
      validateWorkspacePath env p = none) ∧
    (env.stat (resolvePath env.cwd p) = none → validateWorkspacePath env p = none) ∧
    (env.stat (resolvePath env.cwd p) = some false → validateWorkspacePath env p = none) ∧
    (∀ r, validateWorkspacePath env p = some r →
      r = resolvePath env.cwd p ∧ env.stat r = some true ∧
      ∀ f ∈ FORBIDDEN_PATHS, r ≠ f ∧ sStartsWith r (f ++ "/") = false) := by
  unfold validateWorkspacePath
  by_cases hforb : FORBIDDEN_PATHS.any
      (fun f => resolvePath env.cwd p = f || sStartsWith (resolvePath env.cwd p) (f ++ "/"))
      = true
  · rw [if_pos hforb]
    exact ⟨fun f hf h => rfl, fun h => rfl, fun h => rfl, fun r hr => by cases hr⟩
  · rw [if_neg hforb]
    have hnot : ∀ f ∈ FORBIDDEN_PATHS,
        ¬(resolvePath env.cwd p = f ∨ sStartsWith (resolvePath env.cwd p) (f ++ "/") = true) := by
      intro f hf hcon
      apply hforb
      rw [List.any_eq_true]
      refine ⟨f, hf, ?_⟩
      rw [Bool.or_eq_true, decide_eq_true_eq]
      exact hcon
    refine ⟨fun f hf h => absurd h (hnot f hf), ?_, ?_, ?_⟩
    · intro h; rw [h]
    · intro h; rw [h]
    · intro r hr
      cases hstat : env.stat (resolvePath env.cwd p) with
      | none => rw [hstat] at hr; cases hr
      | some b =>
        cases b with
        | false => rw [hstat] at hr; cases hr
        | true =>
          rw [hstat] at hr
          injection hr with hr
          subst hr
          refine ⟨rfl, hstat, fun f hf => ?_⟩
          have hnf := hnot f hf
          push_neg at hnf
          exact ⟨hnf.1, by simpa using hnf.2⟩

/-- C6 witness: a candidate containing `..` segments that resolve under
`/etc` is rejected even though the filesystem reports a directory. -/
theorem C6_witness :
    validateWorkspacePath ⟨"/work", fun _ => some true, none, fun _ => none⟩
      "/home/user/../../etc/nginx" = none :=
  (C6_validate_workspace_path ⟨"/work", fun _ => some true, none, fun _ => none⟩
    "/home/user/../../etc/nginx").1 "/etc" (by decide) (Or.inr (by decide))

/-- C7 counterexample: two `initialize` requests with different valid
roots both pass through `patchInitializeRequest`; the stored root follows
the SECOND one, so it is not immutable after being set once. -/
theorem C7_counterexample :
    (patchInitializeRequest envC7 AdapterState.initial
      (.obj (.cons "method" (.str "initialize")
        (.cons "params" (.obj (.cons "rootUri" (.str "file:///alpha") .nil))
        .nil)))).1.workspaceRoot = some "/alpha" ∧
    (patchInitializeRequest envC7
      (patchInitializeRequest envC7 AdapterState.initial
        (.obj (.cons "method" (.str "initialize")
          (.cons "params" (.obj (.cons "rootUri" (.str "file:///alpha") .nil))
          .nil)))).1
      initMsgBeta).1.workspaceRoot = some "/beta" := by decide

/-- C7 (amended): EVERY `initialize` request whose declared root passes
validation overwrites the stored workspace root — regardless of any root
stored before — while a non-`initialize` message leaves state and message
untouched.  (The claim's set-once immutability does not hold.) -/
theorem C7_root_overwritten (env : Env) (st : AdapterState) (msg : Json) (s v : String)
    (hm : msg.getField "method" = some (.str "initialize"))
    (hroot : jsOr ((msg.getField "params").bind (fun p => Json.getField p "rootUri"))
        ((msg.getField "params").bind (fun p => Json.getField p "rootPath"))
      = some (.str s))
    (hs : s ≠ "")
    (hval : validateWorkspacePath env
        (if sStartsWith s "file://" = true then decodeURIComponentModel (sDrop s 7) else s)
      = some v) :
    (patchInitializeRequest env st msg).1.workspaceRoot = some v ∧
    (∀ (st0 : AdapterState) (m : Json), m.getField "method" ≠ some (.str "initialize") →
      patchInitializeRequest env st0 m = (st0, m)) := by
  constructor
  · unfold patchInitializeRequest
    rw [hm]
    simp only [ne_eq, not_true_eq_false, if_false]
    have hcap : captureWorkspaceRoot env st msg =
        (detectTailwindV4Entrypoint env { st with workspaceRoot := some v }).state := by
      unfold captureWorkspaceRoot
      rw [hroot]
      simp [Json.truthy, hs, hval]
    simp only [hcap, detect_preserves_root]
  · intro st0 m hm0
    unfold patchInitializeRequest
    rw [if_pos hm0]

/-- C7 witness: a second valid `initialize` (root `file:///beta`) applied
to a state already holding root `/alpha` stores `/beta`. -/
theorem C7_witness :
    (patchInitializeRequest envC7 ⟨some "/alpha", some none, []⟩ initMsgBeta).1.workspaceRoot
      = some "/beta" :=
  (C7_root_overwritten envC7 ⟨some "/alpha", some none, []⟩ initMsgBeta
    "file:///beta" "/beta" (by decide) (by decide) (by decide) (by decide)).1

/-- C8 counterexample: a resolver call with no override and no workspace
root CACHES the null outcome, so a later call made after the root becomes
known performs no search and returns none — even though a direct search
with that root would find `src/index.css`. -/
theorem C8_counterexample :
    (detectTailwindV4Entrypoint envC8 AdapterState.initial).value = none ∧
    (detectTailwindV4Entrypoint envC8 AdapterState.initial).state.detectedCssEntrypoint
      = some none ∧
    (detectTailwindV4Entrypoint envC8
      ⟨some "/proj",
        (detectTailwindV4Entrypoint envC8 AdapterState.initial).state.detectedCssEntrypoint,
        []⟩).searched = false ∧
    (detectTailwindV4Entrypoint envC8
      ⟨some "/proj",
        (detectTailwindV4Entrypoint envC8 AdapterState.initial).state.detectedCssEntrypoint,
        []⟩).value = none ∧
    (detectTailwindV4Entrypoint envC8 ⟨some "/proj", none, []⟩).value
      = some "src/index.css" := by decide

/-- C8 (amended): a resolver call with no override and no workspace root
reports none, performs no search, and CACHES the null outcome; and any
call on a state whose cache is settled returns the cached value without
searching and without changing state (so the search runs at most once per
session, but a later call after the root becomes known can no longer
search). -/
theorem C8_resolver_caching (env envLater : Env) (st : AdapterState)
    (hov : env.envEntrypoint = none)
    (hroot : st.workspaceRoot = none)
    (hcache : st.detectedCssEntrypoint = none) :
    (detectTailwindV4Entrypoint env st).value = none ∧
    (detectTailwindV4Entrypoint env st).searched = false ∧
    (detectTailwindV4Entrypoint env st).state.detectedCssEntrypoint = some none ∧
    (∀ (st' : AdapterState) (c : Option String), st'.detectedCssEntrypoint = some c →
      detectTailwindV4Entrypoint envLater st' = ⟨c, st', false⟩) := by
  have h : detectTailwindV4Entrypoint env st =
      ⟨none, { st with detectedCssEntrypoint := some none }, false⟩ := by
    unfold detectTailwindV4Entrypoint detectSearch
    rw [hcache, hov, hroot]
  refine ⟨by rw [h], by rw [h], by rw [h], ?_⟩
  intro st' c hc
  unfold detectTailwindV4Entrypoint
  rw [hc]

/-- C8 witness: the rootless first call reports none, and the call on the
resulting cached state returns none without searching or changing state. -/
theorem C8_witness :
    (detectTailwindV4Entrypoint envC8 AdapterState.initial).value = none ∧
    detectTailwindV4Entrypoint envC8 ⟨some "/proj", some none, []⟩
      = ⟨none, ⟨some "/proj", some none, []⟩, false⟩ := by
  have h := C8_resolver_caching envC8 envC8 AdapterState.initial rfl rfl rfl
  exact ⟨h.1, h.2.2.2 ⟨some "/proj", some none, []⟩ none rfl⟩

/-- C9 counterexample: the code's `endsWith`-based rule accepts a
priority filename at ANY depth, so the deeply nested
`/proj/deep/nested/index.css` wins, while the claim's rule (root or its
`src/` subdirectory only) qualifies no file and would fall back to the
search tool's first match `/proj/a.css`. -/
theorem C9_counterexample :
    selectBestMatch ["/proj/a.css", "/proj/deep/nested/index.css"]
      = some "/proj/deep/nested/index.css" ∧
    selectBestMatchClaim "/proj" ["/proj/a.css", "/proj/deep/nested/index.css"] = none ∧
    (selectBestMatchClaim "/proj" ["/proj/a.css", "/proj/deep/nested/index.css"]).getD
      (["/proj/a.css", "/proj/deep/nested/index.css"].headD "") = "/proj/a.css" ∧
    (detectTailwindV4Entrypoint envC9 ⟨some "/proj", none, []⟩).value
      = some "deep/nested/index.css" := by decide

/-- C9 (amended): among the (at most five) grep matches the resolver
selects, in priority order, the first file whose path merely ENDS in
`/src/<name>` or `/<name>` — at any depth, not only at the root — falling
back to the first match, and relativizes the winner when it starts with
the workspace root. -/
theorem C9_selection_rule (env : Env) (st : AdapterState) (root out : String)
    (hov : env.envEntrypoint = none)
    (hcache : st.detectedCssEntrypoint = none)
    (hroot : st.workspaceRoot = some root)
    (hgrep : env.grep root = some out)
    (hne : sJoin '\n' ((sSplitOn (sTrim out) '\n').take 5) ≠ "") :
    (detectTailwindV4Entrypoint env st).value =
      some (
        let files := (sSplitOn (sJoin '\n' ((sSplitOn (sTrim out) '\n').take 5)) '\n').filter
          (fun f => f ≠ "")
        let winner := (selectBestMatch files).getD (files.headD "")
        if sStartsWith winner root = true then sDrop winner (root.length + 1) else winner) := by
  unfold detectTailwindV4Entrypoint detectSearch
  rw [hcache, hov, hroot]
  simp only []
  rw [hgrep]
  simp only []
  rw [if_pos hne]

/-- C9 witness: on the two-file grep output the resolver returns the
nested winner, relativized. -/
theorem C9_witness :
    (detectTailwindV4Entrypoint envC9 ⟨some "/proj", none, []⟩).value
      = some "deep/nested/index.css" :=
  (C9_selection_rule envC9 ⟨some "/proj", none, []⟩ "/proj"
    "/proj/a.css\n/proj/deep/nested/index.css" rfl rfl rfl rfl (by decide)).trans (by decide)

/-- C10 counterexample: the handshake rewrite OVERWRITES the
caller-declared `workspace.configuration = false` with `true`, so not
every caller-declared capability value survives the merge. -/
theorem C10_counterexample :
    ((((((patchInitializeRequest nullEnv AdapterState.initial msgC10).2.getField
        "params").bind (fun p => Json.getField p "capabilities")).bind
        (fun c => Json.getField c "workspace")).bind
        (fun w => Json.getField w "configuration")) = some (.bool true)) ∧
    ((((msgC10.getField "params").bind (fun p => Json.getField p "capabilities")).bind
        (fun c => Json.getField c "workspace")).bind
        (fun w => Json.getField w "configuration")) = some (.bool false) := by decide

/-- C10 (amended): the rewrite preserves every caller-declared capability
field OUTSIDE the patched groups (`workspace`, `textDocument`, `window`)
unchanged, while each patched group is replaced by the adapter's merge of
the caller's group — within which the adapter's own keys overwrite any
caller-declared values. -/
theorem C10_capability_merge (env : Env) (st : AdapterState) (msg : Json)
    (params caps : JsonFields) (k : String) (v : Json)
    (hm : msg.getField "method" = some (.str "initialize"))
    (hp : msg.getField "params" = some (.obj params))
    (hc : params.get "capabilities" = some (.obj caps))
    (hk1 : k ≠ "workspace") (hk2 : k ≠ "textDocument") (hk3 : k ≠ "window")
    (hv : caps.get k = some v) :
    ∃ caps' : JsonFields,
      ((patchInitializeRequest env st msg).2.getField "params").bind
        (fun p => Json.getField p "capabilities") = some (.obj caps') ∧
      caps'.get k = some v ∧
      caps'.get "workspace"
        = some (.obj (patchWorkspace (spreadFields (caps.get "workspace")))) ∧
      caps'.get "textDocument"
        = some (.obj (patchTextDocument (spreadFields (caps.get "textDocument")))) := by
  unfold patchInitializeRequest
  simp only [hm, ne_eq, not_true_eq_false, if_false]
  rw [hp, spreadFields_obj, hc, spreadFields_obj]
  refine ⟨((caps.set "window" (.obj ((spreadFields (caps.get "window")).set
      "workDoneProgress" (.bool true)))).set "workspace"
      (.obj (patchWorkspace (spreadFields (caps.get "workspace"))))).set "textDocument"
      (.obj (patchTextDocument (spreadFields (caps.get "textDocument")))),
    ?_, ?_, ?_, ?_⟩
  · simp only [Json.getField, JsonFields.get_set_self, Option.some_bind]
  · rw [JsonFields.get_set_ne _ _ _ _ (fun h => hk2 h.symm),
      JsonFields.get_set_ne _ _ _ _ (fun h => hk1 h.symm),
      JsonFields.get_set_ne _ _ _ _ (fun h => hk3 h.symm)]
    exact hv
  · rw [JsonFields.get_set_ne _ _ _ _ (by decide), JsonFields.get_set_self]
  · rw [JsonFields.get_set_self]

/-- C10 witness: the caller's unrelated custom capability field survives
the rewrite of `msgC10`. -/
theorem C10_witness :
    (((patchInitializeRequest nullEnv AdapterState.initial msgC10).2.getField
      "params").bind (fun p => Json.getField p "capabilities")).bind
      (fun c => Json.getField c "myCustom") = some (.str "keep") := by
  obtain ⟨caps', h1, h2, h3, h4⟩ := C10_capability_merge nullEnv AdapterState.initial msgC10
    (.cons "capabilities" (.obj (.cons "workspace"
      (.obj (.cons "configuration" (.bool false) .nil))
      (.cons "myCustom" (.str "keep") .nil))) .nil)
    (.cons "workspace" (.obj (.cons "configuration" (.bool false) .nil))
      (.cons "myCustom" (.str "keep") .nil))
    "myCustom" (.str "keep")
    (by decide) (by decide) (by decide) (by decide) (by decide) (by decide) (by decide)
  rw [h1]
  simpa [Json.getField] using h2

end TailwindAdapter
